import Mathlib

/-!
Verification development for the memory-management core of a small teaching
operating system (contiguous frame pool, page table, virtual memory pool).
The C++ sources are shallowly embedded: machine unsigned arithmetic is Nat
with an explicit modulus 2 ^ 32 wherever the source can wrap, the 2-bit frame
bitmap is a total function from frame indices to the pair of bits the source
stores, stateful methods become state-passing functions, and the two
unbounded while loops (the free-run scanner of get_frames and the trailing
walk of pool_release_frame) take an explicit fuel argument: a result of
`none` means the loop did not finish within the given fuel.  Memory beyond
the entries the pool initialises is part of the bitmap function (the source
reads such memory; its content is arbitrary), so theorems that need the scan
to stay inside the pool say so by hypothesis.
-/

namespace Csce611

/-- 2 ^ 32: unsigned long and unsigned int are 32 bits on the i386 target. -/
def W : Nat := 4294967296

/-- Wrapping 32-bit subtraction, the value C computes for a - b on unsigneds. -/
def wsub (a b : Nat) : Nat := (a % W + (W - b % W)) % W

/-- FRAME_SIZE and PAGE_SIZE of the sources. -/
def FRAME_SIZE : Nat := 4096

/-- The three frame states of cont_frame_pool.  In the source the state of
frame f is two bits of a byte array: mask = 1 shifted to the low bit of the
field, mask shifted left once the high bit.  Free is both bits set, HoS is
low bit clear and high bit set, everything else is Used. -/
inductive FrameState where
  | Free
  | HoS
  | Used
deriving DecidableEq, Repr

/-- A bitmap entry: (low bit, high bit) of the 2-bit field of one frame.
The byte-level operations of the source (OR and XOR against a mask that
covers exactly these two bits) act on each field independently, so the
per-frame pair is a faithful view of the byte array. -/
abbrev Entry := Bool × Bool

/-- ContFramePool::get_state, lines 131-141: Free when both bits set, HoS
when the low bit is clear and the high bit set, Used otherwise. -/
def get_state (bm : Nat → Entry) (f : Nat) : FrameState :=
  if (bm f).1 && (bm f).2 then .Free
  else if !(bm f).1 && (bm f).2 then .HoS
  else .Used

/-- The bit update ContFramePool::set_state performs on the 2-bit field:
Used XORs both bits, Free ORs both bits to one, HoS XORs the low bit. -/
def set_bits (b : Entry) : FrameState → Entry
  | .Used => (!b.1, !b.2)
  | .Free => (true, true)
  | .HoS => (!b.1, b.2)

/-- ContFramePool::set_state, lines 143-164, as an update of the bitmap. -/
def set_state (bm : Nat → Entry) (f : Nat) (st : FrameState) : Nat → Entry :=
  fun i => if i = f then set_bits (bm f) st else bm i

/-- A contiguous frame pool: the data members of class ContFramePool that
its instance operations touch.  The bitmap is the 2-bit state array as a
total function; entries at index nframes and beyond model the memory that
follows the initialised part of the info frame (the source reads it, its
content is arbitrary). -/
structure ContFramePool where
  base_frame_no : Nat
  nframes : Nat
  nFreeFrames : Nat
  info_frame_no : Nat
  bitmap : Nat → Entry

/-- A fatal assertion (assert.H is not part of src/).  Modelled from the
spec: a failed assertion prints a diagnostic and halts forever, so an
operation either ends fatal or returns a value. -/
inductive OsResult (α : Type) where
  | fatal
  | ok (val : α)

/-- The constructor loop of ContFramePool (line 187): mark entries 0..n-1
Free, in increasing order. -/
def initLoop (bm : Nat → Entry) : Nat → Nat → Entry
  | 0 => bm
  | k + 1 => set_state (initLoop bm k) k .Free

/-- ContFramePool::ContFramePool, lines 166-214.  mem is the pre-existing
content of the frame that holds the bitmap; the assert that the bitmap fits
one frame is the fatal case; when info_frame_no is zero, frame 0 is marked
HoS and nFreeFrames decremented (with 32-bit wrap, as the source does).
The global registry append and the kind tag (lines 197-211) only serve the
static dispatch of release_frames and are not needed by the instance
operations modelled here. -/
def ContFramePool.construct (mem : Nat → Entry) (base n info : Nat) :
    OsResult ContFramePool :=
  if n ≤ FRAME_SIZE * 4 then
    let bm0 := initLoop mem n
    if info = 0 then
      .ok ⟨base, n, wsub n 1, info, set_state bm0 0 .HoS⟩
    else
      .ok ⟨base, n, n, info, bm0⟩
  else .fatal

/-- The inner while loop of get_frames, lines 230-234: keep reading entries
while they are Free, break once the candidate run has the requested length.
Returns (frame_sequence_length, fn, indices read), or none when the loop
did not finish within fuel. -/
def innerScan (bm : Nat → Entry) (n : Nat) : Nat → Nat → Nat → Option (Nat × Nat × List Nat)
  | 0, _, _ => none
  | fuel + 1, len, fn =>
    if get_state bm fn = .Free then
      if len = n then some (len, fn, [fn])
      else
        match innerScan bm n fuel (len + 1) (fn + 1) with
        | none => none
        | some (l, f, rs) => some (l, f, fn :: rs)
    else some (len, fn, [fn])

/-- The outer while loop of get_frames, lines 223-239.  Carries
(start_frame_number, frame_sequence_length, fn); returns their final values
and the list of indices read from the bitmap. -/
def outerScan (bm : Nat → Entry) (nframes n : Nat) :
    Nat → Nat → Nat → Nat → Option (Nat × Nat × List Nat)
  | 0, _, _, _ => none
  | fuel + 1, start, len, fn =>
    if fn < nframes then
      if get_state bm fn = .Free then
        match innerScan bm n fuel 1 (fn + 1) with
        | none => none
        | some (len2, fn2, rs) =>
          if len2 = n then some (fn, len2, fn :: rs)
          else
            match outerScan bm nframes n fuel fn len2 (fn2 + 1) with
            | none => none
            | some (s3, l3, rs3) => some (s3, l3, fn :: rs ++ rs3)
      else
        match outerScan bm nframes n fuel start len (fn + 1) with
        | none => none
        | some (s2, l2, rs2) => some (s2, l2, fn :: rs2)
    else some (start, len, [])

/-- The marking loop of mark_inaccessible, lines 266-269: set entries
start+1 .. start+n-1 Used, in increasing order.  The counter is the number
of iterations left; returns the new bitmap and the indices written. -/
def markUsedLoop : (Nat → Entry) → Nat → Nat → (Nat → Entry) × List Nat
  | bm, _, 0 => (bm, [])
  | bm, fno, k + 1 =>
    let r := markUsedLoop (set_state bm fno .Used) (fno + 1) k
    (r.1, fno :: r.2)

/-- ContFramePool::mark_inaccessible, lines 252-272.  Returns the updated
pool and the list of bitmap indices read or written (the index read by the
Free check, then each index written). -/
def ContFramePool.mark_inaccessible (p : ContFramePool) (bfn n : Nat) :
    ContFramePool × List Nat :=
  let s := wsub bfn p.base_frame_no
  if get_state p.bitmap s = .Free then
    let r := markUsedLoop (set_state p.bitmap s .HoS) (s + 1) (n - 1)
    ({ p with bitmap := r.1, nFreeFrames := wsub p.nFreeFrames n }, s :: s :: r.2)
  else
    (p, [s])

/-- The result of get_frames: fatal when the opening assert fails, otherwise
the returned frame number, the pool after the call, and the bitmap indices
the call read or wrote. -/
inductive GetFramesResult where
  | fatal
  | ok (ret : Nat) (pool : ContFramePool) (acc : List Nat)

/-- ContFramePool::get_frames, lines 216-250: assert nFreeFrames is enough,
run the first-fit scan, and on success mark the run through
mark_inaccessible and return base + start (32-bit sum); on failure return 0
with the pool unchanged. -/
def ContFramePool.get_frames (fuel : Nat) (p : ContFramePool) (n : Nat) :
    Option GetFramesResult :=
  if n ≤ p.nFreeFrames then
    match outerScan p.bitmap p.nframes n fuel 0 0 0 with
    | none => none
    | some (start, len, rs) =>
      if len = n then
        let r := p.mark_inaccessible ((p.base_frame_no + start) % W) n
        some (.ok ((start + p.base_frame_no) % W) r.1 (rs ++ r.2))
      else some (.ok 0 p rs)
  else some .fatal

/-- The trailing walk of pool_release_frame, lines 319-323: free and count
frames while they read Used.  Carries the bitmap and nFreeFrames (the
increment wraps at 2 ^ 32 as in C); returns them with the indices read,
or none when the walk did not stop within fuel. -/
def releaseWalk : (Nat → Entry) → Nat → Nat → Nat → Option ((Nat → Entry) × Nat × List Nat)
  | _, _, 0, _ => none
  | bm, nf, fuel + 1, fno =>
    if get_state bm fno = .Used then
      match releaseWalk (set_state bm fno .Free) ((nf + 1) % W) fuel (fno + 1) with
      | none => none
      | some (b, m, rs) => some (b, m, fno :: rs)
    else some (bm, nf, [fno])

/-- ContFramePool::pool_release_frame, lines 305-326.  Note the source does
not return in the non-HoS branch: after logging it still walks the trailing
frames.  Returns the updated pool and the indices read or written. -/
def ContFramePool.pool_release_frame (fuel : Nat) (p : ContFramePool) (ffn : Nat) :
    Option (ContFramePool × List Nat) :=
  let fno := wsub ffn p.base_frame_no
  let head :=
    if get_state p.bitmap fno = .HoS then
      (set_state p.bitmap fno .Free, (p.nFreeFrames + 1) % W, [fno, fno])
    else (p.bitmap, p.nFreeFrames, ([fno] : List Nat))
  match releaseWalk head.1 head.2.1 fuel (fno + 1) with
  | none => none
  | some (bm2, nf2, rs) =>
    some ({ p with bitmap := bm2, nFreeFrames := nf2 }, head.2.2 ++ rs)

/-! ### Specification-side vocabulary for the frame pool claims.
These definitions follow the words of the claims (first-fit runs, counts of
states); the theorems compare the embedded code against them. -/

/-- The claim about get_frames speaks of a run of n Free entries starting at
s that lies entirely within the pool of nframes entries. -/
def FreeRun (bm : Nat → Entry) (nframes n s : Nat) : Prop :=
  s + n ≤ nframes ∧ ∀ i, i < n → get_state bm (s + i) = .Free

instance (bm : Nat → Entry) (nframes n s : Nat) : Decidable (FreeRun bm nframes n s) := by
  unfold FreeRun; infer_instance

/-- Number of entries among indices 0..k-1 whose state is st. -/
def countState (bm : Nat → Entry) (st : FrameState) : Nat → Nat
  | 0 => 0
  | k + 1 => countState bm st k + (if get_state bm k = st then 1 else 0)

/-- The pool the claim about get_frames expects after a successful
allocation of n frames at index s: s marked HoS, the following n - 1
entries marked Used, nFreeFrames decremented by n. -/
def specMarked (p : ContFramePool) (s n : Nat) : ContFramePool :=
  { p with
    bitmap := fun i =>
      if i = s then set_bits (p.bitmap s) .HoS
      else if s + 1 ≤ i ∧ i < s + n then set_bits (p.bitmap i) .Used
      else p.bitmap i,
    nFreeFrames := p.nFreeFrames - n }

/-! ### Virtual memory pool -/

/-- The data members of class VMPool the modelled operations touch.  The
region array lives in the first page of the pool in the source; here it is
a total function from slot index to (base_address, size), entries at and
beyond num_vm_regions being the uninitialised remainder of that page. -/
structure VMPool where
  base_address : Nat
  size : Nat
  num_vm_regions : Nat
  vm_region_list : Nat → Nat × Nat

/-- VMPool::is_legitimate, lines 118-128 of vm_pool.C: false iff the address
is below base_address or above base_address + size (32-bit sum). -/
def VMPool.is_legitimate (v : VMPool) (addr : Nat) : Bool :=
  if addr < v.base_address ∨ addr > (v.base_address + v.size) % W then false
  else true

/-- VMPool::VMPool, lines 46-70: record the fields, write region 0 =
(base_address, PAGE_SIZE) into the bookkeeping page, num_vm_regions = 1.
junk is the pre-existing content of that page; registration with the page
table is the registry-list argument of handle_fault. -/
def VMPool.construct (junk : Nat → Nat × Nat) (base size : Nat) : VMPool :=
  { base_address := base, size := size, num_vm_regions := 1,
    vm_region_list := fun i => if i = 0 then (base, 4096) else junk i }

/-- The page count VMPool::allocate computes, line 73. -/
def pagesOf (s : Nat) : Nat := s / 4096 + (if s % 4096 > 0 then 1 else 0)

/-- VMPool::allocate, lines 72-84: append a region right after the last one,
sized to whole pages, and return its base (read back from the array after
num_vm_regions was incremented).  All stored arithmetic is 32-bit. -/
def VMPool.allocate (v : VMPool) (s : Nat) : VMPool × Nat :=
  let num_pages := pagesOf s
  let prev := v.vm_region_list (wsub v.num_vm_regions 1)
  let newBase := (prev.1 + prev.2) % W
  let newSize := (num_pages * 4096) % W
  let rl := fun i => if i = v.num_vm_regions then (newBase, newSize) else v.vm_region_list i
  let v2 : VMPool :=
    { v with vm_region_list := rl, num_vm_regions := (v.num_vm_regions + 1) % W }
  (v2, (v2.vm_region_list (wsub v2.num_vm_regions 1)).1)

/-- The search loop of VMPool::release, lines 87-92: first index below
num_vm_regions whose recorded base matches, else num_vm_regions.  The
counter is the number of slots left to inspect. -/
def findRegionLoop (v : VMPool) (addr : Nat) : Nat → Nat → Nat
  | idx, 0 => idx
  | idx, k + 1 =>
    if (v.vm_region_list idx).1 = addr then idx else findRegionLoop v addr (idx + 1) k

/-- VMPool::release, lines 86-116: find the region, free its pages through
PageTable::free_page (returned as the list of page addresses passed to it),
shift the later regions left one slot, decrement num_vm_regions.  The
shift loop runs while the index is below num_vm_regions - 1 computed as a
32-bit unsigned value. -/
def VMPool.release (v : VMPool) (addr : Nat) : VMPool × List Nat :=
  let idx := findRegionLoop v addr 0 v.num_vm_regions
  let num_pages := (v.vm_region_list idx).2 / 4096
  let freed := (List.range num_pages).map (fun k => (addr + 4096 * k) % W)
  let rl := fun i =>
    if idx ≤ i ∧ i < wsub v.num_vm_regions 1 then v.vm_region_list (i + 1)
    else v.vm_region_list i
  ({ v with vm_region_list := rl, num_vm_regions := wsub v.num_vm_regions 1 }, freed)

/-- Sum of the sizes of the first k recorded regions (claim C7 measures it
over num_vm_regions entries). -/
def sumSizes (v : VMPool) : Nat → Nat
  | 0 => 0
  | k + 1 => sumSizes v k + (v.vm_region_list k).2

/-- A sequence of allocate calls and the addresses they return. -/
def allocRun (v : VMPool) : List Nat → VMPool × List Nat
  | [] => (v, [])
  | s :: rest =>
    let r := v.allocate s
    let r2 := allocRun r.1 rest
    (r2.1, r.2 :: r2.2)

/-! ### Page table -/

/-- Pointwise update of an entry array. -/
def updateFn (t : Nat → Nat) (i v : Nat) : Nat → Nat := fun j => if j = i then v else t j

/-- The page-table fill loop of PageTable::PageTable, lines 39-42: entry pte
gets address OR 3, the address accumulator advancing by PAGE_SIZE.  The
counter is the number of iterations left (1024 from the start). -/
def fillTableLoop : (Nat → Nat) → Nat → Nat → Nat → (Nat → Nat)
  | tbl, _, _, 0 => tbl
  | tbl, pte, address, k + 1 =>
    fillTableLoop (updateFn tbl pte ((address ||| 3) % W)) (pte + 1) ((address + 4096) % W) k

/-- The directory fill loop of PageTable::PageTable, lines 52-54: entries
1 .. ENTRIES_PER_PAGE - 2 get 0 OR 2 (kernel_rw_absent).  1022 iterations. -/
def fillDirLoop : (Nat → Nat) → Nat → Nat → (Nat → Nat)
  | dir, _, 0 => dir
  | dir, pde, k + 1 => fillDirLoop (updateFn dir pde 2) (pde + 1) k

/-- PageTable::PageTable, lines 25-57, given the physical addresses the two
get_frames(1) calls produced (dirAddr from the kernel pool, ptAddr from the
process pool) and the prior contents of those frames.  Returns the page
directory and the page table.  Lines 48-49 write ptAddr then OR in 3, so
entry 0 ends as ptAddr OR 3. -/
def PageTable.construct (dir0 tbl0 : Nat → Nat) (dirAddr ptAddr : Nat) :
    (Nat → Nat) × (Nat → Nat) :=
  let tbl := fillTableLoop tbl0 0 0 1024
  let dir1 := updateFn dir0 1023 ((dirAddr ||| 3) % W)
  let dir2 := updateFn dir1 0 ((ptAddr ||| 3) % W)
  (fillDirLoop dir2 1 1022, tbl)

/-- Modelled from the spec: the MMU two-level translation (spec sections 3
and 6; the hardware walk is external to the sources).  mem maps a physical
byte address of a 4-byte-aligned word to its 32-bit value; the walk reads
the PDE at dirAddr, masks its frame bits, reads the PTE there, and joins
the frame bits with the page offset. -/
def translate (mem : Nat → Nat) (dirAddr va : Nat) : Nat :=
  let pde := mem (dirAddr + 4 * (va >>> 22))
  let tblAddr := pde &&& 0xFFFFF000
  let pte := mem (tblAddr + 4 * ((va >>> 12) &&& 1023))
  (pte &&& 0xFFFFF000) + (va &&& 4095)

/-- Modelled from the spec: the 32-bit word a virtual address reads under a
page directory rooted at dirAddr. -/
def readVirtual (mem : Nat → Nat) (dirAddr va : Nat) : Nat :=
  mem (translate mem dirAddr va)

/-- Physical memory holding the constructed directory and page table at
their frame addresses, zero elsewhere: the concrete memory for the claim
about the word at virtual address 0xFFFFF000. -/
def physMem (dirAddr ptAddr : Nat) (dir tbl : Nat → Nat) (a : Nat) : Nat :=
  if dirAddr ≤ a ∧ a < dirAddr + 4096 then dir ((a - dirAddr) / 4)
  else if ptAddr ≤ a ∧ a < ptAddr + 4096 then tbl ((a - ptAddr) / 4)
  else 0

/-- The VM-pool walk of PageTable::handle_fault, lines 103-113: returns the
loop variable cur_vm_pool and present_flag as the loop leaves them (the
loop breaks with the pool that accepted the address, or falls off the end
with the null pointer and the flag still 0). -/
def legitWalk (addr : Nat) : List VMPool → Option VMPool × Nat
  | [] => (none, 0)
  | p :: rest => if p.is_legitimate addr then (some p, 1) else legitWalk addr rest

/-- What one call of PageTable::handle_fault does: nothing for a
protection fault, a fatal assertion, or the installation of a new PDE
(with the fill value written into every entry of the new page-table page)
or of a new PTE, together with the process pool after its get_frames(1). -/
inductive HandleFaultResult where
  | presentBitFault
  | fatalAssert
  | fatalAlloc
  | installPDE (pdeIndex pdeEntry fillValue : Nat) (pool : ContFramePool)
  | installPTE (pteIndex pteEntry : Nat) (pool : ContFramePool)

/-- PageTable::handle_fault, lines 78-147.  dir is the current page
directory (read at pde_index for the present bit), vm_pool_head the
registered VM pools in list order, process_mem_pool the pool backing the
two get_frames(1) calls.  The PDE and PTE writes go through the recursive
aliases PDE_address and PTE_address in the source; here they are returned
as the installed entry values.  Masks: 3 kernel_rw_present, 4
user_r_absent, 7 user_rw_present. -/
def PageTable.handle_fault (fuel : Nat) (dir : Nat → Nat) (vm_pool_head : List VMPool)
    (process_mem_pool : ContFramePool) (err_code faulty_address : Nat) :
    Option HandleFaultResult :=
  let pde_index := faulty_address >>> 22
  let pte_index := (faulty_address >>> 12) &&& 1023
  if err_code &&& 1 = 0 then
    let walk := legitWalk faulty_address vm_pool_head
    if walk.1.isSome = true ∧ walk.2 = 0 then some .fatalAssert
    else if dir pde_index &&& 1 = 0 then
      match ContFramePool.get_frames fuel process_mem_pool 1 with
      | none => none
      | some .fatal => some .fatalAlloc
      | some (.ok f p _) => some (.installPDE pde_index (f * 4096 % W ||| 3) 4 p)
    else
      match ContFramePool.get_frames fuel process_mem_pool 1 with
      | none => none
      | some .fatal => some .fatalAlloc
      | some (.ok f p _) => some (.installPTE pte_index (f * 4096 % W ||| 7) p)
  else some .presentBitFault

/-- True on the two mapping-installing outcomes of handle_fault. -/
def HandleFaultResult.installsMapping : HandleFaultResult → Bool
  | .installPDE _ _ _ _ => true
  | .installPTE _ _ _ => true
  | _ => false

/-- True on the two fatal outcomes of handle_fault. -/
def HandleFaultResult.isFatal : HandleFaultResult → Bool
  | .fatalAssert => true
  | .fatalAlloc => true
  | _ => false

/-- The calls PageTable::free_page makes on other components, in order. -/
inductive PTCall where
  | releaseFrames (frame : Nat)
  | load
deriving DecidableEq, Repr

/-- The outcome of PageTable::free_page: the page-table page after the PTE
update, and the calls made (release of the computed frame, then load). -/
structure FreePageResult where
  page_table_page : Nat → Nat
  calls : List PTCall

/-- PageTable::free_page, lines 165-191.  table is the page-table page the
recursive alias PTE_address(page_no) designates; the frame number is the
masked PTE divided by PAGE_SIZE; the PTE has its bit 0 cleared by an AND
with 0xFFFFFFFE; load() is called last to flush the TLB. -/
def PageTable.free_page (table : Nat → Nat) (page_no : Nat) : FreePageResult :=
  let pte_index := (page_no >>> 12) &&& 1023
  let frame_num := (table pte_index &&& 0xFFFFF000) / 4096
  { page_table_page := fun i => if i = pte_index then table pte_index &&& 0xFFFFFFFE else table i
    calls := [.releaseFrames frame_num, .load] }

/-- Projection of a get_frames result onto the returned frame number. -/
def GetFramesResult.retVal : GetFramesResult → Option Nat
  | .fatal => none
  | .ok r _ _ => some r

/-- Projection of a get_frames result onto the pool after the call. -/
def GetFramesResult.poolAfter : GetFramesResult → Option ContFramePool
  | .fatal => none
  | .ok _ p _ => some p

/-- Projection of a get_frames result onto the accessed bitmap indices. -/
def GetFramesResult.accessed : GetFramesResult → List Nat
  | .fatal => []
  | .ok _ _ a => a

/-- True exactly on the fatal get_frames result. -/
def GetFramesResult.isFatal : GetFramesResult → Bool
  | .fatal => true
  | .ok _ _ _ => false

/-- The conservation invariant of claim C6: the three state counts over the
nframes bitmap entries partition nframes, and the Free count is the stored
nFreeFrames. -/
def poolConserved (p : ContFramePool) : Prop :=
  countState p.bitmap .Free p.nframes + countState p.bitmap .HoS p.nframes +
      countState p.bitmap .Used p.nframes = p.nframes ∧
    countState p.bitmap .Free p.nframes = p.nFreeFrames

instance (p : ContFramePool) : Decidable (poolConserved p) := by
  unfold poolConserved
  infer_instance

/-! ### Concrete instances used by the claim theorems -/

/-- Content of the kernel-pool info frame before construction. -/
def kmem : Nat → Entry := fun _ => (false, false)

/-- The kernel pool of scenario C5: 512 frames from frame 512, info frame 0
(so frame 0 self-consumed).  This literal equals what the constructor
produces; the claim theorem states and proves that equality. -/
def kpool : ContFramePool := ⟨512, 512, 511, 0, set_state (initLoop kmem 512) 0 .HoS⟩

/-- kpool after get_frames(500) allocated frames 513..1012 (indices 1..500). -/
def kpool1 : ContFramePool := specMarked kpool 1 500

/-- kpool1 after release_frames(513) freed indices 1..500 again. -/
def kpool2 : ContFramePool :=
  { kpool1 with
    bitmap := fun i => if 1 ≤ i ∧ i < 501 then (true, true) else kpool1.bitmap i,
    nFreeFrames := 511 }

/-- A 4-frame pool, frames 100..103, with entries Used, Free, Free, Used and
non-Free memory beyond: the witness input for the first-fit theorem. -/
def wpool : ContFramePool :=
  ⟨100, 4, 2, 9, fun i => if i = 1 ∨ i = 2 then (true, true) else (false, false)⟩

/-- A 3-frame pool whose in-pool entries are Free, Used, Free but whose
memory just past the pool (index 3) happens to decode as Free: the
counterexample input for claim C3. -/
def xpool : ContFramePool :=
  ⟨100, 3, 2, 9, fun i => if i = 0 ∨ i = 2 ∨ i = 3 then (true, true) else (false, false)⟩

/-- A 4-frame pool with entries Free, Used, Used, Free, memory at index 4
decoding Free: the counterexample input for claim C6 (the scan marks a run
that leaks past the pool and the Free count diverges from nFreeFrames). -/
def ypool : ContFramePool :=
  ⟨0, 4, 2, 9, fun i => if i = 0 ∨ i = 3 ∨ i = 4 then (true, true) else (false, false)⟩

/-- A 3-frame pool with entries HoS, Used, Free and HoS-decoding memory
beyond: the witness input for the conservation theorem. -/
def zpool : ContFramePool :=
  ⟨0, 3, 1, 9, fun i =>
    if i = 0 then (false, true)
    else if i = 1 then (false, false)
    else if i = 2 then (true, true)
    else (false, true)⟩

/-- A 4-frame pool with entries HoS, Used, Used, Free: the failing input of
claim C2 (releasing the non-HoS frame 1 still frees frame 2). -/
def cpool2 : ContFramePool :=
  ⟨0, 4, 1, 9, fun i =>
    if i = 0 then (false, true)
    else if i = 3 then (true, true)
    else if i < 4 then (false, false)
    else (true, true)⟩

/-- A 3-frame all-Free pool with Used-decoding memory beyond: the failing
input of claim C4 for get_frames (the inner scan reads index 3 = nframes). -/
def cpool3 : ContFramePool :=
  ⟨7, 3, 3, 9, fun i => if i < 3 then (true, true) else (false, false)⟩

/-- A fully allocated 3-frame pool (HoS, Used, Used) with HoS-decoding
memory beyond: the failing input of claim C4 for pool_release_frame (the
trailing walk reads index 3 = nframes). -/
def rpool : ContFramePool :=
  ⟨0, 3, 0, 9, fun i =>
    if i = 0 then (false, true) else if i < 3 then (false, false) else (false, true)⟩

/-- A registered VM pool covering 0x100000 .. 0x101000: the failing input
of claim C1 together with a faulting address far outside it. -/
def vmDemo : VMPool := ⟨0x100000, 4096, 1, fun _ => (0, 0)⟩

/-- A page directory whose every entry has the present bit clear. -/
def dirZero : Nat → Nat := fun _ => 0

/-- A 4-frame process pool, all Free, for the get_frames(1) call that
handle_fault makes on the failing input of claim C1. -/
def ppoolDemo : ContFramePool :=
  ⟨1024, 4, 4, 1, fun i => if i < 4 then (true, true) else (false, false)⟩

/-- All-zero initial contents for the directory and page-table frames. -/
def zeroWords : Nat → Nat := fun _ => 0

/-- The directory and page table PageTable::PageTable builds when the
kernel pool hands out frame 512 (address 0x200000) for the directory and
the process pool frame 1024 (address 0x400000) for the table. -/
def cdirtbl : (Nat → Nat) × (Nat → Nat) :=
  PageTable.construct zeroWords zeroWords 0x200000 0x400000

/-- Physical memory holding cdirtbl at those two frame addresses. -/
def cmem : Nat → Nat := physMem 0x200000 0x400000 cdirtbl.1 cdirtbl.2

/-- Uninitialised content of a VM-pool bookkeeping page. -/
def zreg : Nat → Nat × Nat := fun _ => (0, 0)

set_option maxRecDepth 8192

/-! ### Basic lemmas about the bitmap encoding -/

lemma get_state_eq_free_iff (bm : Nat → Entry) (f : Nat) :
    get_state bm f = .Free ↔ bm f = (true, true) := by
  rcases h : bm f with ⟨b1, b2⟩
  cases b1 <;> cases b2 <;> simp [get_state, h]

lemma set_state_ne (bm : Nat → Entry) (f : Nat) (st : FrameState) {i : Nat} (h : i ≠ f) :
    set_state bm f st i = bm i := by
  simp [set_state, h]

lemma set_state_self (bm : Nat → Entry) (f : Nat) (st : FrameState) :
    set_state bm f st f = set_bits (bm f) st := by
  simp [set_state]

lemma get_state_congr_at {bm1 bm2 : Nat → Entry} (i : Nat) (h : bm1 i = bm2 i) :
    get_state bm1 i = get_state bm2 i := by
  simp [get_state, h]

lemma get_state_of_value {bm : Nat → Entry} {f : Nat} {e : Entry} (h : bm f = e) :
    get_state bm f = (if e.1 && e.2 then .Free else if !e.1 && e.2 then .HoS else .Used) := by
  simp [get_state, h]

/-! ### Wrapping arithmetic lemmas -/

lemma wsub_eq_sub {a b : Nat} (h1 : b ≤ a) (h2 : a < W) : wsub a b = a - b := by
  have hb : b < W := lt_of_le_of_lt h1 h2
  have hW : 0 < W := by norm_num [W]
  unfold wsub
  rw [Nat.mod_eq_of_lt h2, Nat.mod_eq_of_lt hb]
  have h3 : a + (W - b) = (a - b) + W := by omega
  rw [h3, Nat.add_mod_right, Nat.mod_eq_of_lt (by omega)]

/-! ### The constructor loop -/

lemma initLoop_lt (bm : Nat → Entry) : ∀ n i, i < n → initLoop bm n i = (true, true) := by
  intro n
  induction n with
  | zero => intro i hi; omega
  | succ k ih =>
    intro i hi
    show set_state (initLoop bm k) k .Free i = (true, true)
    rcases Nat.lt_or_ge i k with h | h
    · rw [set_state_ne _ _ _ (by omega)]
      exact ih i h
    · have : i = k := by omega
      subst this
      rw [set_state_self]
      rfl

lemma initLoop_ge (bm : Nat → Entry) : ∀ n i, n ≤ i → initLoop bm n i = bm i := by
  intro n
  induction n with
  | zero => intro i _; rfl
  | succ k ih =>
    intro i hi
    show set_state (initLoop bm k) k .Free i = bm i
    rw [set_state_ne _ _ _ (by omega)]
    exact ih i (by omega)

/-! ### The marking loop -/

lemma markUsedLoop_fst : ∀ (k : Nat) (bm : Nat → Entry) (fno i : Nat),
    (markUsedLoop bm fno k).1 i =
      if fno ≤ i ∧ i < fno + k then set_bits (bm i) .Used else bm i := by
  intro k
  induction k with
  | zero =>
    intro bm fno i
    show bm i = _
    rw [if_neg (by omega)]
  | succ m ih =>
    intro bm fno i
    show (markUsedLoop (set_state bm fno .Used) (fno + 1) m).1 i = _
    rw [ih]
    by_cases hif : i = fno
    · subst hif
      rw [if_neg (by omega), if_pos (by omega), set_state_self]
    · rw [set_state_ne _ _ _ hif]
      by_cases hin : fno + 1 ≤ i ∧ i < fno + 1 + m
      · rw [if_pos hin, if_pos (by omega)]
      · rw [if_neg hin, if_neg (by omega)]

/-! ### Counting lemmas -/

lemma countState_congr (bm1 bm2 : Nat → Entry) (st : FrameState) :
    ∀ k, (∀ i, i < k → get_state bm1 i = get_state bm2 i) →
    countState bm1 st k = countState bm2 st k := by
  intro k
  induction k with
  | zero => intro _; rfl
  | succ m ih =>
    intro h
    show countState bm1 st m + _ = countState bm2 st m + _
    rw [ih (fun i hi => h i (by omega)), h m (by omega)]

lemma countState_le (bm : Nat → Entry) (st : FrameState) : ∀ k, countState bm st k ≤ k := by
  intro k
  induction k with
  | zero => exact Nat.le_refl _
  | succ m ih =>
    show countState bm st m + _ ≤ m + 1
    split <;> omega

lemma countState_mono (bm : Nat → Entry) (st : FrameState) {k1 k2 : Nat} (h : k1 ≤ k2) :
    countState bm st k1 ≤ countState bm st k2 := by
  induction k2 with
  | zero =>
    have : k1 = 0 := by omega
    subst this; exact Nat.le_refl _
  | succ m ih =>
    rcases Nat.lt_or_ge k1 (m + 1) with h2 | h2
    · have := ih (by omega)
      show _ ≤ countState bm st m + _
      split <;> omega
    · have : k1 = m + 1 := by omega
      subst this; exact Nat.le_refl _

lemma countState_partition (bm : Nat → Entry) :
    ∀ k, countState bm .Free k + countState bm .HoS k + countState bm .Used k = k := by
  intro k
  induction k with
  | zero => rfl
  | succ m ih =>
    show countState bm .Free m + _ + (countState bm .HoS m + _) + (countState bm .Used m + _) = m + 1
    rcases h : get_state bm m <;> simp [h] <;> omega

lemma countState_update (bm1 bm2 : Nat → Entry) (st : FrameState) (j : Nat) :
    ∀ k, j < k → (∀ i, i < k → i ≠ j → get_state bm1 i = get_state bm2 i) →
    countState bm2 st k + (if get_state bm1 j = st then 1 else 0) =
      countState bm1 st k + (if get_state bm2 j = st then 1 else 0) := by
  intro k
  induction k with
  | zero => intro h; omega
  | succ m ih =>
    intro hj h
    rcases Nat.lt_or_ge j m with h2 | h2
    · have hm : get_state bm1 m = get_state bm2 m := h m (by omega) (by omega)
      show countState bm2 st m + _ + _ = countState bm1 st m + _ + _
      have := ih h2 (fun i hi hne => h i (by omega) hne)
      rw [hm]
      omega
    · have : j = m := by omega
      subst this
      show countState bm2 st j + _ + _ = countState bm1 st j + _ + _
      rw [countState_congr bm2 bm1 st j (fun i hi => (h i (by omega) (by omega)).symm)]
      omega

lemma countState_run_le (bm : Nat → Entry) (s : Nat) :
    ∀ m, (∀ i, i < m → get_state bm (s + i) = .Free) →
    m ≤ countState bm .Free (s + m) := by
  intro m
  induction m with
  | zero => intro _; exact Nat.zero_le _
  | succ k ih =>
    intro h
    have h1 : countState bm .Free (s + (k + 1)) =
        countState bm .Free (s + k) + (if get_state bm (s + k) = .Free then 1 else 0) := rfl
    rw [h1, h k (by omega)]
    have := ih (fun i hi => h i (by omega))
    simp
    omega


lemma countState_marked_range :
    ∀ (m : Nat) (bm : Nat → Entry) (s k : Nat), s + m ≤ k →
    (∀ i, i < m → get_state bm (s + i) = .Free) →
    countState (fun i => if s ≤ i ∧ i < s + m then set_bits (bm i) .Used else bm i) .Free k
      = countState bm .Free k - m := by
  intro m
  induction m with
  | zero =>
    intro bm s k _ _
    rw [countState_congr _ bm .Free k fun i _ => get_state_congr_at i (by
      show (if s ≤ i ∧ i < s + 0 then set_bits (bm i) .Used else bm i) = bm i
      rw [if_neg (by omega)])]
    omega
  | succ m ih =>
    intro bm s k hk hrun
    have hprev := ih bm s k (by omega) (fun i hi => hrun i (by omega))
    have hbits : bm (s + m) = (true, true) :=
      (get_state_eq_free_iff bm (s + m)).mp (hrun m (by omega))
    have hup := countState_update
      (fun i => if s ≤ i ∧ i < s + m then set_bits (bm i) .Used else bm i)
      (fun i => if s ≤ i ∧ i < s + (m + 1) then set_bits (bm i) .Used else bm i)
      .Free (s + m) k (by omega)
      (fun i _ hne => get_state_congr_at i (by
        show (if s ≤ i ∧ i < s + m then set_bits (bm i) .Used else bm i)
          = (if s ≤ i ∧ i < s + (m + 1) then set_bits (bm i) .Used else bm i)
        by_cases h1 : s ≤ i ∧ i < s + m
        · rw [if_pos h1, if_pos (by omega)]
        · rw [if_neg h1, if_neg (by omega)]))
    have hold : get_state (fun i => if s ≤ i ∧ i < s + m then set_bits (bm i) .Used else bm i)
        (s + m) = .Free := by
      have h2 : (fun i => if s ≤ i ∧ i < s + m then set_bits (bm i) .Used else bm i) (s + m)
          = bm (s + m) := by
        show (if s ≤ s + m ∧ s + m < s + m then set_bits (bm (s + m)) .Used else bm (s + m))
          = bm (s + m)
        rw [if_neg (by omega)]
      rw [get_state_congr_at (s + m) h2]
      exact hrun m (by omega)
    have hnew : get_state (fun i => if s ≤ i ∧ i < s + (m + 1) then set_bits (bm i) .Used else bm i)
        (s + m) = .Used := by
      have h2 : (fun i => if s ≤ i ∧ i < s + (m + 1) then set_bits (bm i) .Used else bm i) (s + m)
          = (false, false) := by
        show (if s ≤ s + m ∧ s + m < s + (m + 1) then set_bits (bm (s + m)) .Used
            else bm (s + m)) = (false, false)
        rw [if_pos (by omega), hbits]
        rfl
      rw [get_state_of_value h2]
      rfl
    rw [hold, hnew] at hup
    have hge : m + 1 ≤ countState bm .Free k := by
      have h1 := countState_run_le bm s (m + 1) hrun
      have h2 := countState_mono bm .Free (show s + (m + 1) ≤ k by omega)
      omega
    simp at hup
    omega

lemma countState_freed_range :
    ∀ (m : Nat) (bm : Nat → Entry) (s k : Nat), s + m ≤ k →
    (∀ i, i < m → get_state bm (s + i) ≠ .Free) →
    countState (fun i => if s ≤ i ∧ i < s + m then (true, true) else bm i) .Free k
      = countState bm .Free k + m := by
  intro m
  induction m with
  | zero =>
    intro bm s k _ _
    rw [countState_congr _ bm .Free k fun i _ => get_state_congr_at i (by
      show (if s ≤ i ∧ i < s + 0 then ((true, true) : Entry) else bm i) = bm i
      rw [if_neg (by omega)])]
    omega
  | succ m ih =>
    intro bm s k hk hrun
    have hprev := ih bm s k (by omega) (fun i hi => hrun i (by omega))
    have hup := countState_update
      (fun i => if s ≤ i ∧ i < s + m then (true, true) else bm i)
      (fun i => if s ≤ i ∧ i < s + (m + 1) then (true, true) else bm i)
      .Free (s + m) k (by omega)
      (fun i _ hne => get_state_congr_at i (by
        show (if s ≤ i ∧ i < s + m then ((true, true) : Entry) else bm i)
          = (if s ≤ i ∧ i < s + (m + 1) then ((true, true) : Entry) else bm i)
        by_cases h1 : s ≤ i ∧ i < s + m
        · rw [if_pos h1, if_pos (by omega)]
        · rw [if_neg h1, if_neg (by omega)]))
    have hold : get_state (fun i => if s ≤ i ∧ i < s + m then (true, true) else bm i)
        (s + m) = get_state bm (s + m) := by
      refine get_state_congr_at (s + m) ?_
      show (if s ≤ s + m ∧ s + m < s + m then ((true, true) : Entry) else bm (s + m)) = bm (s + m)
      rw [if_neg (by omega)]
    have hnew : get_state (fun i => if s ≤ i ∧ i < s + (m + 1) then (true, true) else bm i)
        (s + m) = .Free := by
      have h2 : (fun i => if s ≤ i ∧ i < s + (m + 1) then (true, true) else bm i) (s + m)
          = ((true, true) : Entry) := by
        show (if s ≤ s + m ∧ s + m < s + (m + 1) then ((true, true) : Entry) else bm (s + m))
          = (true, true)
        rw [if_pos (by omega)]
      rw [get_state_of_value h2]
      rfl
    rw [hold, hnew, if_neg (hrun m (by omega)), if_pos rfl] at hup
    omega

lemma innerScan_spec (bm : Nat → Entry) (n : Nat) :
    ∀ fuel len fn, len ≤ n → n + 1 ≤ fuel + len →
    ∃ len2 fn2 rs, innerScan bm n fuel len fn = some (len2, fn2, rs) ∧
      len ≤ len2 ∧ len2 ≤ n ∧ fn2 + len = fn + len2 ∧
      (∀ j, fn ≤ j → j < fn2 → get_state bm j = .Free) ∧
      (len2 = n ∨ get_state bm fn2 ≠ .Free) := by
  intro fuel
  induction fuel with
  | zero => intro len fn hlen hfuel; omega
  | succ fuel ih =>
    intro len fn hlen hfuel
    by_cases hf : get_state bm fn = .Free
    · by_cases hl : len = n
      · refine ⟨len, fn, [fn], by simp [innerScan, hf, hl], le_refl _, hlen, rfl, ?_, Or.inl hl⟩
        intro j h1 h2; omega
      · obtain ⟨len2, fn2, rs, heq, h1, h2, h3, hrange, hdisj⟩ :=
          ih (len + 1) (fn + 1) (by omega) (by omega)
        refine ⟨len2, fn2, fn :: rs, ?_, by omega, h2, by omega, ?_, hdisj⟩
        · simp [innerScan, hf, hl, heq]
        · intro j hj1 hj2
          rcases Nat.eq_or_lt_of_le hj1 with h4 | h4
          · exact h4 ▸ hf
          · exact hrange j (by omega) hj2
    · refine ⟨len, fn, [fn], by simp [innerScan, hf], le_refl _, hlen, rfl, ?_, Or.inr hf⟩
      intro j h1 h2; omega

lemma outerScan_spec (bm : Nat → Entry) (N n : Nat) (hn : 1 ≤ n)
    (hjunk : ∀ i, N ≤ i → get_state bm i ≠ .Free) :
    ∀ fuel fn start len,
      1 ≤ fuel → N + n + 2 ≤ fuel + fn →
      (∀ s, s < fn → ¬ FreeRun bm N n s) →
      len ≠ n →
      ∃ st2 len2 rs, outerScan bm N n fuel start len fn = some (st2, len2, rs) ∧
        ((len2 = n ∧ FreeRun bm N n st2 ∧ ∀ t, t < st2 → ¬ FreeRun bm N n t) ∨
         (len2 ≠ n ∧ ∀ s, ¬ FreeRun bm N n s)) := by
  intro fuel
  induction fuel with
  | zero =>
    intro fn start len h1 _ _ _
    exact absurd h1 (by omega)
  | succ fuel ih =>
    intro fn start len hf1 hf2 hprev hlen
    by_cases hfn : fn < N
    · by_cases hf : get_state bm fn = .Free
      · obtain ⟨len2, fn2, rs, heq, hge1, hle2, hsum, hrange, hdisj⟩ :=
          innerScan_spec bm n fuel 1 (fn + 1) hn (by omega)
        have hfn2 : fn2 = fn + len2 := by omega
        have hrunAll : ∀ i, i < len2 → get_state bm (fn + i) = .Free := by
          intro i hi
          rcases Nat.eq_zero_or_pos i with h0 | h0
          · subst h0; exact hf
          · exact hrange (fn + i) (by omega) (by omega)
        by_cases hl2 : len2 = n
        · refine ⟨fn, len2, fn :: rs, by simp [outerScan, hfn, hf, heq, hl2], Or.inl ⟨hl2, ?_, ?_⟩⟩
          · constructor
            · subst hl2
              have hlast : get_state bm (fn + (len2 - 1)) = .Free := hrunAll (len2 - 1) (by omega)
              by_contra hcon
              exact hjunk (fn + (len2 - 1)) (by omega) hlast
            · intro i hi
              subst hl2
              exact hrunAll i hi
          · intro t ht
            exact hprev t ht
        · have hnf2 : get_state bm fn2 ≠ .Free := by
            rcases hdisj with h | h
            · exact absurd h hl2
            · exact h
          obtain ⟨st3, len3, rs3, heq3, hconc⟩ := ih (fn2 + 1) fn len2 (by omega) (by omega)
            (by
              intro s hs
              rcases Nat.lt_or_ge s fn with h2 | h2
              · exact hprev s h2
              · intro hfit
                have hi : fn2 - s < n := by omega
                have := hfit.2 (fn2 - s) hi
                rw [show s + (fn2 - s) = fn2 by omega] at this
                exact hnf2 this)
            hl2
          exact ⟨st3, len3, fn :: rs ++ rs3, by simp [outerScan, hfn, hf, heq, hl2, heq3], hconc⟩
      · obtain ⟨st2, len2, rs2, heq2, hconc⟩ := ih (fn + 1) start len (by omega) (by omega)
          (by
            intro s hs
            rcases Nat.lt_or_ge s fn with h2 | h2
            · exact hprev s h2
            · intro hfit
              have : s = fn := by omega
              subst this
              have := hfit.2 0 (by omega)
              rw [Nat.add_zero] at this
              exact hf this)
          hlen
        exact ⟨st2, len2, fn :: rs2, by simp [outerScan, hfn, hf, heq2], hconc⟩
    · refine ⟨start, len, [], by simp [outerScan, hfn], Or.inr ⟨hlen, ?_⟩⟩
      intro s hfit
      have hs : s < N := by
        have := hfit.1
        omega
      exact hprev s (by omega) hfit

lemma get_frames_found (p : ContFramePool) (n fuel s : Nat)
    (hn : 1 ≤ n) (hfree : n ≤ p.nFreeFrames) (hWf : p.nFreeFrames < W)
    (hbase : p.base_frame_no + p.nframes < W)
    (hjunk : ∀ i, p.nframes ≤ i → get_state p.bitmap i ≠ .Free)
    (hfit : FreeRun p.bitmap p.nframes n s)
    (hleast : ∀ t, t < s → ¬ FreeRun p.bitmap p.nframes n t)
    (hfuel : p.nframes + n + 2 ≤ fuel) :
    ∃ rs, ContFramePool.get_frames fuel p n =
      some (.ok (p.base_frame_no + s) (specMarked p s n) rs) := by
  obtain ⟨st2, len2, rs, heq, hconc⟩ :=
    outerScan_spec p.bitmap p.nframes n hn hjunk fuel 0 0 0 (by omega) (by omega)
      (fun t ht => absurd ht (by omega)) (by omega)
  rcases hconc with ⟨hl, hfit2, hleast2⟩ | ⟨_, hnone⟩
  · have hst : st2 = s := by
      rcases Nat.lt_trichotomy st2 s with h | h | h
      · exact absurd hfit2 (hleast st2 h)
      · exact h
      · exact absurd hfit (hleast2 s h)
    subst hst
    have hsN : st2 < p.nframes := by have := hfit.1; omega
    have hsW : p.base_frame_no + st2 < W := by omega
    have harg : (p.base_frame_no + st2) % W = p.base_frame_no + st2 := Nat.mod_eq_of_lt hsW
    have hwsub : wsub (p.base_frame_no + st2) p.base_frame_no = st2 := by
      rw [wsub_eq_sub (by omega) hsW]; omega
    have hfree0 : get_state p.bitmap st2 = .Free := by
      have := hfit.2 0 (by omega)
      rwa [Nat.add_zero] at this
    have hm1 : (p.mark_inaccessible ((p.base_frame_no + st2) % W) n).1 = specMarked p st2 n := by
      unfold ContFramePool.mark_inaccessible
      rw [harg, hwsub, if_pos hfree0]
      show ({ p with
          bitmap := (markUsedLoop (set_state p.bitmap st2 .HoS) (st2 + 1) (n - 1)).1,
          nFreeFrames := wsub p.nFreeFrames n } : ContFramePool) = _
      have hbmeq : (markUsedLoop (set_state p.bitmap st2 .HoS) (st2 + 1) (n - 1)).1
          = (specMarked p st2 n).bitmap := by
        funext i
        rw [markUsedLoop_fst]
        show _ = (if i = st2 then set_bits (p.bitmap st2) .HoS
          else if st2 + 1 ≤ i ∧ i < st2 + n then set_bits (p.bitmap i) .Used
          else p.bitmap i)
        by_cases h1 : i = st2
        · subst h1
          rw [if_neg (by omega), if_pos rfl, set_state_self]
        · rw [if_neg h1]
          by_cases h2 : st2 + 1 ≤ i ∧ i < st2 + 1 + (n - 1)
          · rw [if_pos h2, if_pos (by omega), set_state_ne _ _ _ h1]
          · rw [if_neg h2, if_neg (by omega), set_state_ne _ _ _ h1]
      have hnf : wsub p.nFreeFrames n = p.nFreeFrames - n := wsub_eq_sub hfree hWf
      show ContFramePool.mk p.base_frame_no p.nframes (wsub p.nFreeFrames n) p.info_frame_no
          (markUsedLoop (set_state p.bitmap st2 .HoS) (st2 + 1) (n - 1)).1 = _
      rw [hnf, hbmeq]
      rfl
    refine ⟨rs ++ (p.mark_inaccessible ((p.base_frame_no + st2) % W) n).2, ?_⟩
    have hopen : ContFramePool.get_frames fuel p n =
        some (.ok ((st2 + p.base_frame_no) % W)
          (p.mark_inaccessible ((p.base_frame_no + st2) % W) n).1
          (rs ++ (p.mark_inaccessible ((p.base_frame_no + st2) % W) n).2)) := by
      simp [ContFramePool.get_frames, hfree, heq, hl]
    rw [hopen, hm1]
    rw [show (st2 + p.base_frame_no) % W = p.base_frame_no + st2 by rw [Nat.add_comm]; exact harg]
  · exact absurd hfit (hnone s)

lemma get_frames_notfound (p : ContFramePool) (n fuel : Nat)
    (hn : 1 ≤ n) (hfree : n ≤ p.nFreeFrames)
    (hjunk : ∀ i, p.nframes ≤ i → get_state p.bitmap i ≠ .Free)
    (hnone : ∀ s, ¬ FreeRun p.bitmap p.nframes n s)
    (hfuel : p.nframes + n + 2 ≤ fuel) :
    ∃ rs, ContFramePool.get_frames fuel p n = some (.ok 0 p rs) := by
  obtain ⟨st2, len2, rs, heq, hconc⟩ :=
    outerScan_spec p.bitmap p.nframes n hn hjunk fuel 0 0 0 (by omega) (by omega)
      (fun t ht => absurd ht (by omega)) (by omega)
  rcases hconc with ⟨_, hfit2, _⟩ | ⟨hl2, _⟩
  · exact absurd hfit2 (hnone st2)
  · exact ⟨rs, by simp [ContFramePool.get_frames, hfree, heq, hl2]⟩

lemma releaseWalk_spec (e : Nat) :
    ∀ fuel (bm : Nat → Entry) (nf fno : Nat), fno ≤ e →
    (∀ j, fno ≤ j → j < e → get_state bm j = .Used) →
    get_state bm e ≠ .Used →
    nf < W →
    e + 1 ≤ fuel + fno →
    ∃ rs, releaseWalk bm nf fuel fno =
      some ((fun i => if fno ≤ i ∧ i < e then (true, true) else bm i),
        (nf + (e - fno)) % W, rs) := by
  intro fuel
  induction fuel with
  | zero => intro bm nf fno h1 _ _ _ h5; omega
  | succ fuel ih =>
    intro bm nf fno hle hused hstop hnf hfuel
    rcases Nat.eq_or_lt_of_le hle with heq | hlt
    · subst heq
      refine ⟨[fno], ?_⟩
      have hbm : (fun i => if fno ≤ i ∧ i < fno then ((true, true) : Entry) else bm i) = bm := by
        funext i
        rw [if_neg (by omega)]
      rw [hbm, show (nf + (fno - fno)) % W = nf by
        rw [Nat.sub_self, Nat.add_zero, Nat.mod_eq_of_lt hnf]]
      simp [releaseWalk, hstop]
    · have hu : get_state bm fno = .Used := hused fno (le_refl _) hlt
      have hnf1 : (nf + 1) % W < W := Nat.mod_lt _ (by norm_num [W])
      obtain ⟨rs, hIH⟩ := ih (set_state bm fno .Free) ((nf + 1) % W) (fno + 1) (by omega)
        (fun j hj1 hj2 => by
          rw [get_state_congr_at j (set_state_ne bm fno .Free (by omega))]
          exact hused j (by omega) hj2)
        (by
          rw [get_state_congr_at e (set_state_ne bm fno .Free (by omega))]
          exact hstop)
        hnf1 (by omega)
      refine ⟨fno :: rs, ?_⟩
      have hstep : releaseWalk bm nf (fuel + 1) fno =
          some ((fun i => if fno + 1 ≤ i ∧ i < e then (true, true)
              else set_state bm fno .Free i),
            ((nf + 1) % W + (e - (fno + 1))) % W, fno :: rs) := by
        simp [releaseWalk, hu, hIH]
      rw [hstep]
      simp only [Option.some.injEq, Prod.mk.injEq]
      refine ⟨?_, ?_, trivial⟩
      · funext i
        by_cases h1 : i = fno
        · subst h1
          rw [if_neg (by omega), if_pos (by omega), set_state_self]
          rfl
        · by_cases h2 : fno + 1 ≤ i ∧ i < e
          · rw [if_pos h2, if_pos (by omega)]
          · rw [if_neg h2, if_neg (by omega), set_state_ne _ _ _ h1]
      · rw [Nat.mod_add_mod]
        congr 1
        omega

lemma pool_release_frame_hos (p : ContFramePool) (f e fuel : Nat)
    (hWb : p.base_frame_no + f < W)
    (hW : p.nFreeFrames + (e - f) < W)
    (hHoS : get_state p.bitmap f = .HoS)
    (hfe : f + 1 ≤ e)
    (hused : ∀ j, f + 1 ≤ j → j < e → get_state p.bitmap j = .Used)
    (hstop : get_state p.bitmap e ≠ .Used)
    (hfuel : e ≤ fuel + f) :
    ∃ rs, ContFramePool.pool_release_frame fuel p (p.base_frame_no + f) =
      some ({ p with
        bitmap := fun i => if f ≤ i ∧ i < e then (true, true) else p.bitmap i,
        nFreeFrames := p.nFreeFrames + (e - f) }, rs) := by
  have hfno : wsub (p.base_frame_no + f) p.base_frame_no = f := by
    rw [wsub_eq_sub (by omega) hWb]; omega
  have hnf1 : (p.nFreeFrames + 1) % W = p.nFreeFrames + 1 := Nat.mod_eq_of_lt (by omega)
  obtain ⟨rs, hwalk⟩ := releaseWalk_spec e fuel (set_state p.bitmap f .Free)
    ((p.nFreeFrames + 1) % W) (f + 1) (by omega)
    (fun j hj1 hj2 => by
      rw [get_state_congr_at j (set_state_ne p.bitmap f .Free (by omega))]
      exact hused j hj1 hj2)
    (by
      rw [get_state_congr_at e (set_state_ne p.bitmap f .Free (by omega))]
      exact hstop)
    (Nat.mod_lt _ (by norm_num [W])) (by omega)
  refine ⟨[f, f] ++ rs, ?_⟩
  have hopen : ContFramePool.pool_release_frame fuel p (p.base_frame_no + f) =
      some ({ p with
        bitmap := fun i => if f + 1 ≤ i ∧ i < e then (true, true)
          else set_state p.bitmap f .Free i,
        nFreeFrames := ((p.nFreeFrames + 1) % W + (e - (f + 1))) % W }, [f, f] ++ rs) := by
    simp only [ContFramePool.pool_release_frame, hfno, if_pos hHoS, hwalk]
  rw [hopen]
  simp only [Option.some.injEq, Prod.mk.injEq]
  refine ⟨?_, trivial⟩
  have hbm : (fun i => if f + 1 ≤ i ∧ i < e then ((true, true) : Entry)
      else set_state p.bitmap f .Free i)
      = fun i => if f ≤ i ∧ i < e then (true, true) else p.bitmap i := by
    funext i
    by_cases h1 : i = f
    · subst h1
      rw [if_neg (by omega), if_pos (by omega), set_state_self]
      rfl
    · by_cases h2 : f + 1 ≤ i ∧ i < e
      · rw [if_pos h2, if_pos (by omega)]
      · rw [if_neg h2, if_neg (by omega), set_state_ne _ _ _ h1]
  have hnf : ((p.nFreeFrames + 1) % W + (e - (f + 1))) % W = p.nFreeFrames + (e - f) := by
    rw [hnf1, Nat.mod_eq_of_lt (by omega)]
    omega
  rw [hbm, hnf]

lemma pool_release_frame_nonhos (p : ContFramePool) (f e fuel : Nat)
    (hWb : p.base_frame_no + f < W)
    (hW : p.nFreeFrames + (e - (f + 1)) < W)
    (hnH : get_state p.bitmap f ≠ .HoS)
    (hfe : f + 1 ≤ e)
    (hused : ∀ j, f + 1 ≤ j → j < e → get_state p.bitmap j = .Used)
    (hstop : get_state p.bitmap e ≠ .Used)
    (hfuel : e ≤ fuel + f) :
    ∃ rs, ContFramePool.pool_release_frame fuel p (p.base_frame_no + f) =
      some ({ p with
        bitmap := fun i => if f + 1 ≤ i ∧ i < e then (true, true) else p.bitmap i,
        nFreeFrames := p.nFreeFrames + (e - (f + 1)) }, rs) := by
  have hfno : wsub (p.base_frame_no + f) p.base_frame_no = f := by
    rw [wsub_eq_sub (by omega) hWb]; omega
  obtain ⟨rs, hwalk⟩ := releaseWalk_spec e fuel p.bitmap p.nFreeFrames (f + 1) (by omega)
    hused hstop (by omega) (by omega)
  refine ⟨[f] ++ rs, ?_⟩
  have hopen : ContFramePool.pool_release_frame fuel p (p.base_frame_no + f) =
      some ({ p with
        bitmap := fun i => if f + 1 ≤ i ∧ i < e then (true, true) else p.bitmap i,
        nFreeFrames := (p.nFreeFrames + (e - (f + 1))) % W }, [f] ++ rs) := by
    simp only [ContFramePool.pool_release_frame, hfno, if_neg hnH, hwalk]
  rw [hopen, Nat.mod_eq_of_lt hW]

/-- C1: the claim says that on a not-present fault whose address no
registered VM pool accepts, handle_fault raises a fatal assertion and
installs no mapping.  The code does the opposite: because the registry walk
leaves cur_vm_pool null whenever no pool accepts, the guard at line 115 of
page_table.C is never true, so no assertion fires and a mapping is
installed.  Here one pool is registered, it rejects the faulting address
0x30000000, the error code has the present bit clear, and the result is a
new PDE installation, not a fatal stop. -/
theorem C1_handle_fault_installs_mapping_despite_illegitimate_address :
    VMPool.is_legitimate vmDemo 0x30000000 = false ∧
    (PageTable.handle_fault 12 dirZero [vmDemo] ppoolDemo 0 0x30000000).map
      HandleFaultResult.isFatal = some false ∧
    (PageTable.handle_fault 12 dirZero [vmDemo] ppoolDemo 0 0x30000000).map
      HandleFaultResult.installsMapping = some true := by
  refine ⟨by decide, by decide, by decide⟩

/-- C2: the claim says releasing a non-HoS frame logs and leaves the pool
completely unchanged.  The code has no early return in that branch: on the
pool HoS, Used, Used, Free, releasing frame 1 (state Used) still walks the
trailing Used frames, frees frame 2 and increments nFreeFrames. -/
theorem C2_release_non_hos_frees_trailing_frames :
    get_state cpool2.bitmap 1 ≠ .HoS ∧
    get_state cpool2.bitmap 2 = .Used ∧
    cpool2.nFreeFrames = 1 ∧
    (ContFramePool.pool_release_frame 10 cpool2 1).map
      (fun r => (get_state r.1.bitmap 2, r.1.nFreeFrames)) = some (.Free, 2) := by
  refine ⟨by decide, by decide, by decide, by decide⟩

/-- C4: the claim says every bitmap access of get_frames (under its
precondition) and of pool_release_frame on a HoS frame stays at an index
below nframes.  Both loops in fact read the entry at index nframes: on a
3-frame all-Free pool, get_frames(3) reads index 3, and on a fully
allocated 3-frame pool, releasing the HoS frame 0 walks to index 3. -/
theorem C4_scans_read_bitmap_index_nframes :
    cpool3.nframes = 3 ∧ cpool3.nFreeFrames = 3 ∧
    (ContFramePool.get_frames 20 cpool3 3).map
      (fun r => (GetFramesResult.accessed r).contains 3) = some true ∧
    rpool.nframes = 3 ∧ get_state rpool.bitmap 0 = .HoS ∧
    (ContFramePool.pool_release_frame 10 rpool 0).map
      (fun r => r.2.contains 3) = some true := by
  refine ⟨by decide, by decide, by decide, by decide, by decide, by decide⟩

/-- C9: free_page computes the frame number as the PTE (read through the
PTE_address alias) masked with 0xFFFFF000 and divided by PAGE_SIZE, passes
exactly that frame to static release_frames and then calls load; the PTE
update clears bit 0 and leaves bits 1..31 unchanged, and no other entry of
the page-table page changes. -/
theorem C9_free_page_releases_masked_frame_and_clears_present_bit
    (table : Nat → Nat) (page_no i k : Nat) :
    (PageTable.free_page table page_no).calls =
      [.releaseFrames ((table ((page_no >>> 12) &&& 1023) &&& 0xFFFFF000) / 4096), .load] ∧
    (i ≠ (page_no >>> 12) &&& 1023 →
      (PageTable.free_page table page_no).page_table_page i = table i) ∧
    ((PageTable.free_page table page_no).page_table_page
      ((page_no >>> 12) &&& 1023)).testBit 0 = false ∧
    (1 ≤ k → k < 32 →
      ((PageTable.free_page table page_no).page_table_page ((page_no >>> 12) &&& 1023)).testBit k
        = (table ((page_no >>> 12) &&& 1023)).testBit k) := by
  refine ⟨rfl, ?_, ?_, ?_⟩
  · intro h
    show (if i = (page_no >>> 12) &&& 1023
      then table ((page_no >>> 12) &&& 1023) &&& 0xFFFFFFFE else table i) = table i
    rw [if_neg h]
  · show (if (page_no >>> 12) &&& 1023 = (page_no >>> 12) &&& 1023
      then table ((page_no >>> 12) &&& 1023) &&& 0xFFFFFFFE
      else table ((page_no >>> 12) &&& 1023)).testBit 0 = false
    rw [if_pos rfl, Nat.testBit_land]
    have h0 : Nat.testBit 0xFFFFFFFE 0 = false := by decide
    rw [h0, Bool.and_false]
  · intro h1 h2
    show (if (page_no >>> 12) &&& 1023 = (page_no >>> 12) &&& 1023
      then table ((page_no >>> 12) &&& 1023) &&& 0xFFFFFFFE
      else table ((page_no >>> 12) &&& 1023)).testBit k
      = (table ((page_no >>> 12) &&& 1023)).testBit k
    rw [if_pos rfl, Nat.testBit_land]
    have hm : Nat.testBit 0xFFFFFFFE k = true := by interval_cases k <;> decide
    rw [hm, Bool.and_true]

/-- C9 witness: the theorem applied to the constant page table whose every
entry is 0x1234567, page 0x00403000 (so pte_index 3), spare index 9 and bit
5: the released frame is 0x1234567 masked and divided, entry 9 is
untouched, the present bit of entry 3 ends clear and its bit 5 keeps its
value. -/
theorem C9_free_page_witness :
    (PageTable.free_page (fun _ => 0x1234567) 0x00403000).calls =
      [.releaseFrames (((fun (_ : Nat) => 0x1234567) ((0x00403000 >>> 12) &&& 1023) &&&
        0xFFFFF000) / 4096), .load] ∧
    ((PageTable.free_page (fun _ => 0x1234567) 0x00403000).page_table_page
      ((0x00403000 >>> 12) &&& 1023)).testBit 5
      = ((fun (_ : Nat) => 0x1234567) ((0x00403000 >>> 12) &&& 1023)).testBit 5 := by
  have h := C9_free_page_releases_masked_frame_and_clears_present_bit
    (fun _ => 0x1234567) 0x00403000 9 5
  exact ⟨h.1, h.2.2.2 (by decide) (by decide)⟩

/-- C3 amended: under the additional hypotheses that n is at least 1 and
that no bitmap entry at index nframes or beyond decodes as Free (the scan
reads such entries, so their content matters), get_frames is exactly the
claimed first-fit allocator: with nFreeFrames at least n, if a lowest run
of n Free entries inside the pool exists at s, the call returns
base_frame_no + s and the pool becomes specMarked (s HoS, the next n - 1
entries Used, nFreeFrames reduced by n); if no such run exists, the call
returns 0 and the pool is unchanged. -/
theorem C3_get_frames_first_fit (p : ContFramePool) (n fuel : Nat)
    (hn : 1 ≤ n) (hfree : n ≤ p.nFreeFrames) (hWf : p.nFreeFrames < W)
    (hbase : p.base_frame_no + p.nframes < W)
    (hjunk : ∀ i, p.nframes ≤ i → get_state p.bitmap i ≠ .Free)
    (hfuel : p.nframes + n + 2 ≤ fuel) :
    (∀ s, FreeRun p.bitmap p.nframes n s →
      (∀ t, t < s → ¬ FreeRun p.bitmap p.nframes n t) →
      ∃ rs, ContFramePool.get_frames fuel p n =
        some (.ok (p.base_frame_no + s) (specMarked p s n) rs)) ∧
    ((∀ s, ¬ FreeRun p.bitmap p.nframes n s) →
      ∃ rs, ContFramePool.get_frames fuel p n = some (.ok 0 p rs)) := by
  constructor
  · intro s h1 h2
    exact get_frames_found p n fuel s hn hfree hWf hbase hjunk h1 h2 hfuel
  · intro h
    exact get_frames_notfound p n fuel hn hfree hjunk h hfuel

/-- C3 counterexample: the claim as stated fails when the memory just past
the pool decodes as Free.  xpool has 3 frames with states Free, Used, Free
(no run of 2 Free entries inside the pool) and nFreeFrames = 2, yet
get_frames(2) does not return 0 and does not leave the pool unchanged: the
inner scan runs into index 3, sees the junk Free entry, allocates the run
starting at index 2 that leaks out of the pool, returns 102 and drops
nFreeFrames to 0. -/
theorem C3_counterexample_scan_uses_memory_past_pool :
    xpool.nframes = 3 ∧ xpool.nFreeFrames = 2 ∧
    (∀ s, s < 3 → ¬ FreeRun xpool.bitmap 3 2 s) ∧
    (ContFramePool.get_frames 20 xpool 2).map GetFramesResult.retVal = some (some 102) ∧
    (ContFramePool.get_frames 20 xpool 2).map
      (fun r => r.poolAfter.map ContFramePool.nFreeFrames) = some (some 0) := by
  refine ⟨by decide, by decide, by decide, by decide, by decide⟩

/-- C3 witness: the first-fit theorem applied to the 4-frame pool wpool
(states Used, Free, Free, Used; nothing Free beyond), asking for 2 frames:
the lowest fitting run starts at index 1, so the call returns 100 + 1 and
the pool becomes specMarked wpool 1 2. -/
theorem C3_get_frames_first_fit_witness :
    ∃ rs, ContFramePool.get_frames 20 wpool 2 =
      some (.ok 101 (specMarked wpool 1 2) rs) := by
  exact (C3_get_frames_first_fit wpool 2 20 (by decide) (by decide) (by decide) (by decide)
    (fun i hi => by
      have hi4 : 4 ≤ i := hi
      have h1 : wpool.bitmap i = (false, false) := by
        show (if i = 1 ∨ i = 2 then ((true, true) : Entry) else (false, false)) = (false, false)
        rw [if_neg (by omega)]
      rw [get_state_of_value h1]
      decide)
    (by decide)).1 1 (by decide) (by decide)

lemma kpool_bits (i : Nat) :
    kpool.bitmap i = (if i = 0 then ((false, true) : Entry)
      else if i < 512 then (true, true) else (false, false)) := by
  by_cases h0 : i = 0
  · subst h0
    rw [if_pos rfl]
    show set_state (initLoop kmem 512) 0 .HoS 0 = (false, true)
    rw [set_state_self, initLoop_lt kmem 512 0 (by omega)]
    rfl
  · rw [if_neg h0]
    by_cases h5 : i < 512
    · rw [if_pos h5]
      show set_state (initLoop kmem 512) 0 .HoS i = (true, true)
      rw [set_state_ne _ _ _ h0]
      exact initLoop_lt kmem 512 i h5
    · rw [if_neg h5]
      show set_state (initLoop kmem 512) 0 .HoS i = (false, false)
      rw [set_state_ne _ _ _ h0, initLoop_ge kmem 512 i (by omega)]
      rfl

/-- C5 amended: on the kernel pool of 512 frames with info_frame = 0 (frame
0 self-consumed, nFreeFrames = 511), get_frames(500) returns 513 and marks
indices 1..500; releasing 513 frees them and restores nFreeFrames = 511;
but the subsequent get_frames(1000) does not return 0: it trips the fatal
assertion nFreeFrames at least n (511 < 1000) and halts. -/
theorem C5_kernel_pool_scenario :
    ContFramePool.construct kmem 512 512 0 = .ok kpool ∧
    (∃ rs, ContFramePool.get_frames 1020 kpool 500 = some (.ok 513 kpool1 rs)) ∧
    (∃ rs, ContFramePool.pool_release_frame 600 kpool1 513 = some (kpool2, rs)) ∧
    ContFramePool.get_frames 1020 kpool2 1000 = some .fatal := by
  refine ⟨rfl, ?_, ?_, rfl⟩
  · exact get_frames_found kpool 500 1020 1 (by omega) (by decide) (by decide) (by decide)
      (fun i hi => by
        have hi5 : 512 ≤ i := hi
        have hb : kpool.bitmap i = (false, false) := by
          rw [kpool_bits, if_neg (by omega), if_neg (by omega)]
        rw [get_state_of_value hb]
        decide)
      ⟨by decide, fun i hi => by
        have hb : kpool.bitmap (1 + i) = (true, true) := by
          rw [kpool_bits, if_neg (by omega), if_pos (by omega)]
        exact (get_state_eq_free_iff _ _).mpr hb⟩
      (fun t ht hfit => by
        have ht0 : t = 0 := by omega
        subst ht0
        have hb : kpool.bitmap 0 = (false, true) := by
          rw [kpool_bits, if_pos rfl]
        have h2 := hfit.2 0 (by omega)
        rw [get_state_of_value hb] at h2
        exact absurd h2 (by decide))
      (by decide)
  · exact pool_release_frame_hos kpool1 1 501 600 (by decide) (by decide) (by decide)
      (by decide)
      (fun j hj1 hj2 => by
        have hb : kpool1.bitmap j = (false, false) := by
          show (if j = 1 then set_bits (kpool.bitmap 1) .HoS
            else if 1 + 1 ≤ j ∧ j < 1 + 500 then set_bits (kpool.bitmap j) .Used
            else kpool.bitmap j) = (false, false)
          rw [if_neg (by omega), if_pos (by omega)]
          have hbj : kpool.bitmap j = (true, true) := by
            rw [kpool_bits, if_neg (by omega), if_pos (by omega)]
          rw [hbj]
          rfl
        rw [get_state_of_value hb]
        decide)
      (by decide) (by decide)

/-- C5 counterexample: in the state kpool2 reached after the 500-frame
allocation and its release (nFreeFrames = 511), get_frames(1000) is the
fatal assertion, not a 0 return: the call yields no frame number at all. -/
theorem C5_counterexample_get_frames_1000_is_fatal :
    kpool2.nFreeFrames = 511 ∧
    ContFramePool.get_frames 1020 kpool2 1000 = some .fatal ∧
    (ContFramePool.get_frames 1020 kpool2 1000).map GetFramesResult.retVal = some none := by
  refine ⟨by decide, rfl, rfl⟩

lemma mark_inaccessible_fst (p : ContFramePool) (bfn n : Nat)
    (hfree0 : get_state p.bitmap (wsub bfn p.base_frame_no) = .Free)
    (hWf : p.nFreeFrames < W) (hnle : n ≤ p.nFreeFrames) :
    (p.mark_inaccessible bfn n).1 = specMarked p (wsub bfn p.base_frame_no) n := by
  unfold ContFramePool.mark_inaccessible
  rw [if_pos hfree0]
  show ContFramePool.mk p.base_frame_no p.nframes (wsub p.nFreeFrames n) p.info_frame_no
    (markUsedLoop (set_state p.bitmap (wsub bfn p.base_frame_no) .HoS)
      (wsub bfn p.base_frame_no + 1) (n - 1)).1 = _
  have hbmeq : (markUsedLoop (set_state p.bitmap (wsub bfn p.base_frame_no) .HoS)
      (wsub bfn p.base_frame_no + 1) (n - 1)).1
      = (specMarked p (wsub bfn p.base_frame_no) n).bitmap := by
    funext i
    rw [markUsedLoop_fst]
    show _ = (if i = wsub bfn p.base_frame_no then set_bits (p.bitmap (wsub bfn p.base_frame_no)) .HoS
      else if wsub bfn p.base_frame_no + 1 ≤ i ∧ i < wsub bfn p.base_frame_no + n then
        set_bits (p.bitmap i) .Used
      else p.bitmap i)
    by_cases h1 : i = wsub bfn p.base_frame_no
    · subst h1
      rw [if_neg (by omega), if_pos rfl, set_state_self]
    · rw [if_neg h1]
      by_cases h2 : wsub bfn p.base_frame_no + 1 ≤ i ∧ i < wsub bfn p.base_frame_no + 1 + (n - 1)
      · rw [if_pos h2, if_pos (by omega), set_state_ne _ _ _ h1]
      · rw [if_neg h2, if_neg (by omega), set_state_ne _ _ _ h1]
  rw [hbmeq, wsub_eq_sub hnle hWf]
  rfl

lemma countFree_specMarked (p : ContFramePool) (s n : Nat) (hn : 1 ≤ n)
    (hin : s + n ≤ p.nframes)
    (hrun : ∀ i, i < n → get_state p.bitmap (s + i) = .Free) :
    countState (specMarked p s n).bitmap .Free p.nframes
      = countState p.bitmap .Free p.nframes - n := by
  have hg := countState_marked_range (n - 1) p.bitmap (s + 1) p.nframes (by omega)
    (fun i hi => by
      have h1 := hrun (i + 1) (by omega)
      rwa [show s + (i + 1) = s + 1 + i by omega] at h1)
  have hbits : p.bitmap s = (true, true) := by
    have h0 := hrun 0 (by omega)
    rw [Nat.add_zero] at h0
    exact (get_state_eq_free_iff _ _).mp h0
  have hup := countState_update
    (fun i => if s + 1 ≤ i ∧ i < s + 1 + (n - 1) then set_bits (p.bitmap i) .Used else p.bitmap i)
    (specMarked p s n).bitmap .Free s p.nframes (by omega)
    (fun i _ hne => get_state_congr_at i (by
      show (if s + 1 ≤ i ∧ i < s + 1 + (n - 1) then set_bits (p.bitmap i) .Used else p.bitmap i)
        = (if i = s then set_bits (p.bitmap s) .HoS
          else if s + 1 ≤ i ∧ i < s + n then set_bits (p.bitmap i) .Used
          else p.bitmap i)
      rw [if_neg hne]
      by_cases h2 : s + 1 ≤ i ∧ i < s + 1 + (n - 1)
      · rw [if_pos h2, if_pos (by omega)]
      · rw [if_neg h2, if_neg (by omega)]))
  have hold : get_state
      (fun i => if s + 1 ≤ i ∧ i < s + 1 + (n - 1) then set_bits (p.bitmap i) .Used
        else p.bitmap i) s = .Free := by
    have h2 : (fun i => if s + 1 ≤ i ∧ i < s + 1 + (n - 1) then set_bits (p.bitmap i) .Used
        else p.bitmap i) s = p.bitmap s := by
      show (if s + 1 ≤ s ∧ s < s + 1 + (n - 1) then set_bits (p.bitmap s) .Used else p.bitmap s)
        = p.bitmap s
      rw [if_neg (by omega)]
    rw [get_state_congr_at s h2]
    have h0 := hrun 0 (by omega)
    rwa [Nat.add_zero] at h0
  have hnew : get_state (specMarked p s n).bitmap s = .HoS := by
    have h2 : (specMarked p s n).bitmap s = (false, true) := by
      show (if s = s then set_bits (p.bitmap s) .HoS
        else if s + 1 ≤ s ∧ s < s + n then set_bits (p.bitmap s) .Used
        else p.bitmap s) = (false, true)
      rw [if_pos rfl, hbits]
      rfl
    rw [get_state_of_value h2]
    rfl
  rw [hold, hnew] at hup
  have hge : n ≤ countState p.bitmap .Free p.nframes := by
    have h1 := countState_run_le p.bitmap s n hrun
    have h2 := countState_mono p.bitmap .Free (show s + n ≤ p.nframes by omega)
    omega
  simp at hup
  omega

lemma countFree_freed_interval (bm : Nat → Entry) (a b k : Nat) (hab : a ≤ b) (hbk : b ≤ k)
    (hnf : ∀ j, a ≤ j → j < b → get_state bm j ≠ .Free) :
    countState (fun i => if a ≤ i ∧ i < b then (true, true) else bm i) .Free k
      = countState bm .Free k + (b - a) := by
  have h := countState_freed_range (b - a) bm a k (by omega)
    (fun i hi => hnf (a + i) (by omega) (by omega))
  have hfun : (fun i => if a ≤ i ∧ i < a + (b - a) then ((true, true) : Entry) else bm i)
      = fun i => if a ≤ i ∧ i < b then (true, true) else bm i := by
    funext i
    by_cases h1 : a ≤ i ∧ i < b
    · rw [if_pos (by omega), if_pos h1]
    · rw [if_neg (by omega), if_neg h1]
  rwa [hfun] at h

/-- C6 amended: the conservation invariant (Free + HoS + Used counts over
the nframes entries equal nframes, and the Free count equals nFreeFrames)
holds after construction (for info_frame = 0 the pool must be non-empty)
and is preserved by get_frames (given its assert precondition, n at least
1, and no Free-decoding memory at or past nframes), by mark_inaccessible
of an in-pool all-Free region of at least one frame, and by
pool_release_frame of any governed frame (given no Used-decoding memory at
or past nframes, so the trailing walk stops inside the pool). -/
theorem C6_bitmap_conservation :
    (∀ (mem : Nat → Entry) (base n info : Nat) (p : ContFramePool),
      ContFramePool.construct mem base n info = .ok p → (info = 0 → 1 ≤ n) →
      poolConserved p) ∧
    (∀ (p : ContFramePool) (n fuel : Nat),
      poolConserved p → 1 ≤ n → n ≤ p.nFreeFrames →
      p.base_frame_no + p.nframes < W →
      (∀ i, p.nframes ≤ i → get_state p.bitmap i ≠ .Free) →
      p.nframes + n + 2 ≤ fuel →
      ∃ r p2 rs, ContFramePool.get_frames fuel p n = some (.ok r p2 rs) ∧ poolConserved p2) ∧
    (∀ (p : ContFramePool) (bfn n : Nat),
      poolConserved p → 1 ≤ n →
      FreeRun p.bitmap p.nframes n (wsub bfn p.base_frame_no) →
      p.nframes < W →
      poolConserved (p.mark_inaccessible bfn n).1) ∧
    (∀ (p : ContFramePool) (f fuel : Nat),
      poolConserved p → f < p.nframes → p.base_frame_no + p.nframes < W →
      (∀ i, p.nframes ≤ i → get_state p.bitmap i ≠ .Used) →
      p.nframes ≤ fuel →
      ∃ p2 rs, ContFramePool.pool_release_frame fuel p (p.base_frame_no + f)
        = some (p2, rs) ∧ poolConserved p2) := by
  refine ⟨?_, ?_, ?_, ?_⟩
  · intro mem base n info p h hinfo
    have h' : (if n ≤ FRAME_SIZE * 4 then
        (if info = 0 then
          (.ok ⟨base, n, wsub n 1, info, set_state (initLoop mem n) 0 .HoS⟩ :
            OsResult ContFramePool)
        else .ok ⟨base, n, n, info, initLoop mem n⟩)
      else .fatal) = .ok p := h
    have hc0 : countState (initLoop mem n) .Free n = n := by
      have h1 := countState_le (initLoop mem n) .Free n
      have h2 := countState_run_le (initLoop mem n) 0 n (fun i hi => by
        rw [Nat.zero_add]
        exact (get_state_eq_free_iff _ _).mpr (initLoop_lt mem n i hi))
      rw [Nat.zero_add] at h2
      omega
    split_ifs at h' with hle hinf
    · injection h' with h2
      subst h2
      have hn1 : 1 ≤ n := hinfo hinf
      refine ⟨countState_partition _ n, ?_⟩
      have hup := countState_update (initLoop mem n)
        (set_state (initLoop mem n) 0 .HoS) .Free 0 n (by omega)
        (fun i _ hne => get_state_congr_at i (set_state_ne _ _ _ hne).symm)
      have hold : get_state (initLoop mem n) 0 = .Free :=
        (get_state_eq_free_iff _ _).mpr (initLoop_lt mem n 0 (by omega))
      have hnew : get_state (set_state (initLoop mem n) 0 .HoS) 0 = .HoS := by
        have hv : set_state (initLoop mem n) 0 .HoS 0 = (false, true) := by
          rw [set_state_self, initLoop_lt mem n 0 (by omega)]
          rfl
        rw [get_state_of_value hv]
        rfl
      rw [hold, hnew, hc0] at hup
      simp at hup
      have hnW : n < W := by
        have : n ≤ 16384 := hle
        have : (16384 : Nat) < W := by norm_num [W]
        omega
      show countState (set_state (initLoop mem n) 0 .HoS) .Free n = wsub n 1
      rw [wsub_eq_sub (by omega) hnW]
      omega
    · injection h' with h2
      subst h2
      exact ⟨countState_partition _ n, hc0⟩
  · intro p n fuel hcons hn hfree hbase hjunk hfuel
    have hWf : p.nFreeFrames < W := by
      have h1 := countState_le p.bitmap .Free p.nframes
      have h2 := hcons.2
      omega
    by_cases hfit : ∃ s, FreeRun p.bitmap p.nframes n s
    · have hs0 := Nat.find_spec hfit
      have hleast : ∀ t, t < Nat.find hfit → ¬ FreeRun p.bitmap p.nframes n t :=
        fun t ht => Nat.find_min hfit ht
      obtain ⟨rs, heq⟩ :=
        get_frames_found p n fuel (Nat.find hfit) hn hfree hWf hbase hjunk hs0 hleast hfuel
      refine ⟨_, _, rs, heq, countState_partition _ _, ?_⟩
      show countState (specMarked p (Nat.find hfit) n).bitmap .Free
        (specMarked p (Nat.find hfit) n).nframes = (specMarked p (Nat.find hfit) n).nFreeFrames
      have hcf := countFree_specMarked p (Nat.find hfit) n hn hs0.1 hs0.2
      show countState (specMarked p (Nat.find hfit) n).bitmap .Free p.nframes
        = p.nFreeFrames - n
      rw [hcf, hcons.2]
    · push_neg at hfit
      obtain ⟨rs, heq⟩ := get_frames_notfound p n fuel hn hfree hjunk hfit hfuel
      exact ⟨0, p, rs, heq, hcons⟩
  · intro p bfn n hcons hn hfit hNW
    have hfree0 : get_state p.bitmap (wsub bfn p.base_frame_no) = .Free := by
      have h0 := hfit.2 0 (by omega)
      rwa [Nat.add_zero] at h0
    have hnle : n ≤ p.nFreeFrames := by
      have h1 := countState_run_le p.bitmap (wsub bfn p.base_frame_no) n hfit.2
      have h2 := countState_mono p.bitmap .Free (show wsub bfn p.base_frame_no + n ≤ p.nframes
        from hfit.1)
      have h3 := hcons.2
      omega
    have hWf : p.nFreeFrames < W := by
      have h1 := countState_le p.bitmap .Free p.nframes
      have h2 := hcons.2
      omega
    rw [mark_inaccessible_fst p bfn n hfree0 hWf hnle]
    refine ⟨countState_partition _ _, ?_⟩
    show countState (specMarked p (wsub bfn p.base_frame_no) n).bitmap .Free p.nframes
      = p.nFreeFrames - n
    rw [countFree_specMarked p (wsub bfn p.base_frame_no) n hn hfit.1 hfit.2, hcons.2]
  · intro p f fuel hcons hf hbase hjunkU hfuel
    have hWf : p.nFreeFrames < W := by
      have h1 := countState_le p.bitmap .Free p.nframes
      have h2 := hcons.2
      omega
    have hex : ∃ j, f + 1 ≤ j ∧ get_state p.bitmap j ≠ .Used :=
      ⟨p.nframes, by omega, hjunkU p.nframes (le_refl _)⟩
    have he := Nat.find_spec hex
    have heN : Nat.find hex ≤ p.nframes :=
      Nat.find_min' hex ⟨by omega, hjunkU p.nframes (le_refl _)⟩
    have hused : ∀ j, f + 1 ≤ j → j < Nat.find hex → get_state p.bitmap j = .Used := by
      intro j h1 h2
      by_contra hne
      exact Nat.find_min hex h2 ⟨h1, hne⟩
    by_cases hH : get_state p.bitmap f = .HoS
    · have hnfree : ∀ j, f ≤ j → j < Nat.find hex → get_state p.bitmap j ≠ .Free := by
        intro j h1 h2
        rcases Nat.eq_or_lt_of_le h1 with h3 | h3
        · rw [← h3, hH]
          decide
        · rw [hused j (by omega) h2]
          decide
      have hcount := countFree_freed_interval p.bitmap f (Nat.find hex) p.nframes
        (by omega) heN hnfree
      have hW2 : p.nFreeFrames + (Nat.find hex - f) < W := by
        have h1 := countState_le
          (fun i => if f ≤ i ∧ i < Nat.find hex then ((true, true) : Entry) else p.bitmap i)
          .Free p.nframes
        rw [hcount, hcons.2] at h1
        omega
      obtain ⟨rs, heq⟩ := pool_release_frame_hos p f (Nat.find hex) fuel (by omega) hW2
        hH he.1 hused he.2 (by omega)
      refine ⟨_, rs, heq, countState_partition _ _, ?_⟩
      show countState
        (fun i => if f ≤ i ∧ i < Nat.find hex then ((true, true) : Entry) else p.bitmap i)
        .Free p.nframes = p.nFreeFrames + (Nat.find hex - f)
      rw [hcount, hcons.2]
    · have hnfree : ∀ j, f + 1 ≤ j → j < Nat.find hex → get_state p.bitmap j ≠ .Free := by
        intro j h1 h2
        rw [hused j h1 h2]
        decide
      have hcount := countFree_freed_interval p.bitmap (f + 1) (Nat.find hex) p.nframes
        he.1 heN hnfree
      have hW2 : p.nFreeFrames + (Nat.find hex - (f + 1)) < W := by
        have h1 := countState_le
          (fun i => if f + 1 ≤ i ∧ i < Nat.find hex then ((true, true) : Entry) else p.bitmap i)
          .Free p.nframes
        rw [hcount, hcons.2] at h1
        omega
      obtain ⟨rs, heq⟩ := pool_release_frame_nonhos p f (Nat.find hex) fuel (by omega) hW2
        hH he.1 hused he.2 (by omega)
      refine ⟨_, rs, heq, countState_partition _ _, ?_⟩
      show countState
        (fun i => if f + 1 ≤ i ∧ i < Nat.find hex then ((true, true) : Entry) else p.bitmap i)
        .Free p.nframes = p.nFreeFrames + (Nat.find hex - (f + 1))
      rw [hcount, hcons.2]

/-- C6 counterexample: the invariant is not preserved as claimed when
memory past the pool decodes as Free.  ypool (4 frames: Free, Used, Used,
Free, with index 4 decoding Free) satisfies the conservation invariant
with nFreeFrames = 2, and get_frames(2) meets its precondition; but the
scan accepts the run 3..4 that leaks out of the pool, marks entry 3 HoS,
writes past the pool and subtracts 2 from nFreeFrames, leaving 1 Free
entry against nFreeFrames = 0. -/
theorem C6_counterexample_junk_breaks_conservation :
    poolConserved ypool ∧ 2 ≤ ypool.nFreeFrames ∧
    (ContFramePool.get_frames 20 ypool 2).map
      (fun r => r.poolAfter.map (fun q => decide (poolConserved q))) = some (some false) := by
  refine ⟨by decide, by decide, by decide⟩

/-- C6 witness: the conservation theorem applied twice at concrete inputs:
marking the all-Free region of 2 frames at index 1 of wpool keeps the
invariant, and releasing frame 0 of zpool (HoS, Used, Free; nothing past
the pool decodes Used) succeeds and keeps the invariant. -/
theorem C6_bitmap_conservation_witness :
    poolConserved (ContFramePool.mark_inaccessible wpool 101 2).1 ∧
    (∃ p2 rs, ContFramePool.pool_release_frame 3 zpool (zpool.base_frame_no + 0)
      = some (p2, rs) ∧ poolConserved p2) := by
  constructor
  · exact C6_bitmap_conservation.2.2.1 wpool 101 2 (by decide) (by decide) (by decide) (by decide)
  · exact C6_bitmap_conservation.2.2.2 zpool 0 3 (by decide) (by decide) (by decide)
      (fun i hi => by
        have hi3 : 3 ≤ i := hi
        have hb : zpool.bitmap i = (false, true) := by
          show (if i = 0 then ((false, true) : Entry)
            else if i = 1 then (false, false)
            else if i = 2 then (true, true)
            else (false, true)) = (false, true)
          rw [if_neg (by omega), if_neg (by omega), if_neg (by omega)]
        rw [get_state_of_value hb]
        decide)
      (by decide)

lemma allocate_rl (v : VMPool) (s i : Nat) :
    (v.allocate s).1.vm_region_list i =
      if i = v.num_vm_regions then
        (((v.vm_region_list (wsub v.num_vm_regions 1)).1
          + (v.vm_region_list (wsub v.num_vm_regions 1)).2) % W,
         (pagesOf s * 4096) % W)
      else v.vm_region_list i := rfl

lemma allocate_num (v : VMPool) (s : Nat) :
    (v.allocate s).1.num_vm_regions = (v.num_vm_regions + 1) % W := rfl

lemma release_rl (v : VMPool) (addr i : Nat) :
    (v.release addr).1.vm_region_list i =
      if findRegionLoop v addr 0 v.num_vm_regions ≤ i ∧ i < wsub v.num_vm_regions 1
      then v.vm_region_list (i + 1) else v.vm_region_list i := rfl

lemma release_num (v : VMPool) (addr : Nat) :
    (v.release addr).1.num_vm_regions = wsub v.num_vm_regions 1 := rfl

lemma sumSizes_congr (v1 v2 : VMPool) :
    ∀ k, (∀ i, i < k → (v1.vm_region_list i).2 = (v2.vm_region_list i).2) →
    sumSizes v1 k = sumSizes v2 k := by
  intro k
  induction k with
  | zero => intro _; rfl
  | succ m ih =>
    intro h
    show sumSizes v1 m + (v1.vm_region_list m).2 = sumSizes v2 m + (v2.vm_region_list m).2
    rw [ih (fun i hi => h i (by omega)), h m (by omega)]

lemma sumSizes_shift (v : VMPool) (addr : Nat) (h1 : 1 ≤ v.num_vm_regions)
    (h2 : v.num_vm_regions < W) :
    ∀ m, findRegionLoop v addr 0 v.num_vm_regions ≤ m → m ≤ v.num_vm_regions - 1 →
    sumSizes (v.release addr).1 m
      + (v.vm_region_list (findRegionLoop v addr 0 v.num_vm_regions)).2
      = sumSizes v (m + 1) := by
  have hw : wsub v.num_vm_regions 1 = v.num_vm_regions - 1 := wsub_eq_sub h1 h2
  intro m hm
  induction m, hm using Nat.le_induction with
  | base =>
    intro _
    have hc : sumSizes (v.release addr).1 (findRegionLoop v addr 0 v.num_vm_regions)
        = sumSizes v (findRegionLoop v addr 0 v.num_vm_regions) :=
      sumSizes_congr _ _ _ (fun i hi => by rw [release_rl, if_neg (by omega)])
    have hdef : sumSizes v (findRegionLoop v addr 0 v.num_vm_regions + 1)
        = sumSizes v (findRegionLoop v addr 0 v.num_vm_regions)
          + (v.vm_region_list (findRegionLoop v addr 0 v.num_vm_regions)).2 := rfl
    rw [hc, hdef]
  | succ m hm ih =>
    intro hub
    have ihh := ih (by omega)
    have hs : sumSizes (v.release addr).1 (m + 1)
        = sumSizes (v.release addr).1 m + ((v.release addr).1.vm_region_list m).2 := rfl
    have hrl2 : (v.release addr).1.vm_region_list m = v.vm_region_list (m + 1) := by
      rw [release_rl, if_pos ⟨hm, by rw [hw]; omega⟩]
    have h4 : sumSizes v (m + 1 + 1) = sumSizes v (m + 1) + (v.vm_region_list (m + 1)).2 := rfl
    rw [hs, hrl2, h4]
    omega

/-- C7 amended: the recorded region sizes evolve as follows, with no bound
check anywhere: after construction the sum over the num_vm_regions entries
is PAGE_SIZE (the bookkeeping region); allocate(s) unconditionally appends
a region of ceil(s / PAGE_SIZE) pages and grows the sum by exactly that
amount, refusing nothing, whatever the declared size; release of an
address that matches a recorded region removes exactly that region size
from the sum.  The claimed invariant sum of sizes at most size therefore
holds only while the callers keep the appended amounts within size. -/
theorem C7_region_sum_evolution :
    (∀ (junk : Nat → Nat × Nat) (base size : Nat),
      sumSizes (VMPool.construct junk base size)
        (VMPool.construct junk base size).num_vm_regions = 4096) ∧
    (∀ (v : VMPool) (s : Nat), v.num_vm_regions + 1 < W →
      sumSizes (v.allocate s).1 (v.allocate s).1.num_vm_regions
        = sumSizes v v.num_vm_regions + pagesOf s * 4096 % W) ∧
    (∀ (v : VMPool) (addr : Nat), 1 ≤ v.num_vm_regions → v.num_vm_regions < W →
      findRegionLoop v addr 0 v.num_vm_regions < v.num_vm_regions →
      sumSizes (v.release addr).1 (v.release addr).1.num_vm_regions
        + (v.vm_region_list (findRegionLoop v addr 0 v.num_vm_regions)).2
        = sumSizes v v.num_vm_regions) := by
  refine ⟨?_, ?_, ?_⟩
  · intro junk base size
    show sumSizes (VMPool.construct junk base size) 1 = 4096
    show 0 + ((VMPool.construct junk base size).vm_region_list 0).2 = 4096
    have h : (VMPool.construct junk base size).vm_region_list 0 = (base, 4096) := by
      show (if (0 : Nat) = 0 then (base, 4096) else junk 0) = (base, 4096)
      rw [if_pos rfl]
    rw [h]
    rfl
  · intro v s h
    have hnum : (v.allocate s).1.num_vm_regions = v.num_vm_regions + 1 := by
      rw [allocate_num]
      exact Nat.mod_eq_of_lt h
    rw [hnum]
    have hstep : sumSizes (v.allocate s).1 (v.num_vm_regions + 1)
        = sumSizes (v.allocate s).1 v.num_vm_regions
          + ((v.allocate s).1.vm_region_list v.num_vm_regions).2 := rfl
    have h2 : ((v.allocate s).1.vm_region_list v.num_vm_regions).2 = pagesOf s * 4096 % W := by
      rw [allocate_rl, if_pos rfl]
    have h3 : sumSizes (v.allocate s).1 v.num_vm_regions = sumSizes v v.num_vm_regions :=
      sumSizes_congr _ _ _ (fun i hi => by rw [allocate_rl, if_neg (by omega)])
    rw [hstep, h2, h3]
  · intro v addr h1 h2 hidx
    have hnum : (v.release addr).1.num_vm_regions = v.num_vm_regions - 1 := by
      rw [release_num]
      exact wsub_eq_sub h1 h2
    rw [hnum]
    have h3 := sumSizes_shift v addr h1 h2 (v.num_vm_regions - 1) (by omega) (le_refl _)
    rwa [show v.num_vm_regions - 1 + 1 = v.num_vm_regions by omega] at h3

/-- C7 counterexample: allocate enforces no bound.  On a pool of declared
size 8192 the bookkeeping region already accounts for 4096; two
allocate(4096) calls push the recorded sum to 12288, which exceeds the
declared size, and nothing refused them. -/
theorem C7_counterexample_allocate_exceeds_size :
    ((((VMPool.construct zreg 0 8192).allocate 4096).1.allocate 4096).1).size = 8192 ∧
    sumSizes (((VMPool.construct zreg 0 8192).allocate 4096).1.allocate 4096).1
      ((((VMPool.construct zreg 0 8192).allocate 4096).1.allocate 4096).1).num_vm_regions
      = 12288 ∧
    ¬ (12288 ≤ 8192) := by
  refine ⟨by decide, by decide, by decide⟩

/-- C7 witness: the evolution theorem applied to a freshly built pool and
an unaligned request of 10000 bytes: the sum grows from 4096 by exactly
3 pages. -/
theorem C7_region_sum_evolution_witness :
    sumSizes ((VMPool.construct zreg 0 4096).allocate 10000).1
      ((VMPool.construct zreg 0 4096).allocate 10000).1.num_vm_regions
      = sumSizes (VMPool.construct zreg 0 4096)
          (VMPool.construct zreg 0 4096).num_vm_regions + pagesOf 10000 * 4096 % W := by
  exact C7_region_sum_evolution.2.1 (VMPool.construct zreg 0 4096) 10000 (by decide)

lemma lor3_of_aligned {x : Nat} (hx : x % 4096 = 0) : x ||| 3 = x + 3 := by
  obtain ⟨q, rfl⟩ : ∃ q, x = 2 ^ 12 * q :=
    ⟨x / 4096, by rw [show (2 : Nat) ^ 12 = 4096 by norm_num]; omega⟩
  exact (Nat.mul_add_lt_is_or (by norm_num) q).symm

lemma mask_of_aligned {x r : Nat} (hx : x % 4096 = 0) (hxW : x < W) (hr : r < 4096) :
    (x + r) &&& 0xFFFFF000 = x := by
  obtain ⟨q, rfl⟩ : ∃ q, x = 2 ^ 12 * q :=
    ⟨x / 4096, by rw [show (2 : Nat) ^ 12 = 4096 by norm_num]; omega⟩
  have hq : q < 2 ^ 20 := by
    have hW32 : W = 2 ^ 12 * 2 ^ 20 := by norm_num [W]
    rw [hW32] at hxW
    exact Nat.lt_of_mul_lt_mul_left hxW
  apply Nat.eq_of_testBit_eq
  intro k
  rw [Nat.testBit_and]
  have hmask : Nat.testBit 0xFFFFF000 k = (decide (12 ≤ k) && decide (k - 12 < 20)) := by
    have hm : (0xFFFFF000 : Nat) = 2 ^ 12 * (2 ^ 20 - 1) + 0 := by norm_num
    rw [hm, Nat.testBit_mul_pow_two_add _ (by positivity) k]
    by_cases h12 : k < 12
    · rw [if_pos h12]
      simp only [Nat.zero_testBit]
      have : ¬ (12 ≤ k) := by omega
      simp [this]
    · rw [if_neg h12, Nat.testBit_two_pow_sub_one]
      have : 12 ≤ k := by omega
      simp [this]
  have hx2 : (2 ^ 12 * q + r).testBit k = (if k < 12 then r.testBit k else q.testBit (k - 12)) :=
    Nat.testBit_mul_pow_two_add q (by norm_num at hr ⊢; omega) k
  have hx3 : (2 ^ 12 * q).testBit k = (if k < 12 then false else q.testBit (k - 12)) := by
    have h := Nat.testBit_mul_pow_two_add q (show (0 : Nat) < 2 ^ 12 by positivity) k
    rw [Nat.add_zero] at h
    rw [h]
    by_cases h12 : k < 12
    · rw [if_pos h12, if_pos h12, Nat.zero_testBit]
    · rw [if_neg h12, if_neg h12]
  rw [hx2, hx3, hmask]
  by_cases h12 : k < 12
  · rw [if_pos h12, if_pos h12]
    have : ¬ (12 ≤ k) := by omega
    simp [this]
  · rw [if_neg h12, if_neg h12]
    have h12' : 12 ≤ k := by omega
    simp only [h12', decide_True, Bool.true_and]
    by_cases h20 : k - 12 < 20
    · simp [h20]
    · simp only [h20, decide_False, Bool.and_false]
      symm
      apply Nat.testBit_lt_two_pow
      calc q < 2 ^ 20 := hq
        _ ≤ 2 ^ (k - 12) := Nat.pow_le_pow_right (by omega) (by omega)

lemma fillTableLoop_spec :
    ∀ (k : Nat) (tbl : Nat → Nat) (pte a : Nat), pte + k ≤ 1024 → a = 4096 * pte →
    ∀ i, fillTableLoop tbl pte a k i =
      if pte ≤ i ∧ i < pte + k then (4096 * i ||| 3) % W else tbl i := by
  intro k
  induction k with
  | zero =>
    intro tbl pte a _ _ i
    show tbl i = _
    rw [if_neg (by omega)]
  | succ m ih =>
    intro tbl pte a hk ha i
    show fillTableLoop (updateFn tbl pte ((a ||| 3) % W)) (pte + 1) ((a + 4096) % W) m i = _
    have hW : (4096 : Nat) * 1024 < W := by norm_num [W]
    have ha2 : (a + 4096) % W = 4096 * (pte + 1) := by
      subst ha
      rw [Nat.mod_eq_of_lt (by omega)]
      ring
    rw [ih _ _ _ (by omega) ha2 i]
    by_cases h1 : i = pte
    · subst h1
      rw [if_neg (by omega), if_pos (by omega)]
      show (if i = i then (a ||| 3) % W else tbl i) = (4096 * i ||| 3) % W
      rw [if_pos rfl, ha]
    · by_cases h2 : pte + 1 ≤ i ∧ i < pte + 1 + m
      · rw [if_pos h2, if_pos (by omega)]
      · rw [if_neg h2, if_neg (by omega)]
        show (if i = pte then (a ||| 3) % W else tbl i) = tbl i
        rw [if_neg h1]

lemma fillDirLoop_spec :
    ∀ (k : Nat) (dir : Nat → Nat) (pde i : Nat),
    fillDirLoop dir pde k i = if pde ≤ i ∧ i < pde + k then 2 else dir i := by
  intro k
  induction k with
  | zero =>
    intro dir pde i
    show dir i = _
    rw [if_neg (by omega)]
  | succ m ih =>
    intro dir pde i
    show fillDirLoop (updateFn dir pde 2) (pde + 1) m i = _
    rw [ih]
    by_cases h1 : i = pde
    · subst h1
      rw [if_neg (by omega), if_pos (by omega)]
      show (if i = i then 2 else dir i) = 2
      rw [if_pos rfl]
    · by_cases h2 : pde + 1 ≤ i ∧ i < pde + 1 + m
      · rw [if_pos h2, if_pos (by omega)]
      · rw [if_neg h2, if_neg (by omega)]
        show (if i = pde then 2 else dir i) = dir i
        rw [if_neg h1]

attribute [irreducible] fillTableLoop fillDirLoop

lemma pageTableBuild_facts (dir0 tbl0 : Nat → Nat) (dirAddr ptAddr : Nat)
    (hda : dirAddr % 4096 = 0) (hdW : dirAddr < W) (hpW : ptAddr < W) :
    (∀ i, i < 1024 → (PageTable.construct dir0 tbl0 dirAddr ptAddr).2 i = i * 4096 ||| 3) ∧
    (PageTable.construct dir0 tbl0 dirAddr ptAddr).1 1023 = dirAddr ||| 3 ∧
    (PageTable.construct dir0 tbl0 dirAddr ptAddr).1 0 = ptAddr ||| 3 ∧
    (∀ pde, 1 ≤ pde → pde < 1023 →
      (PageTable.construct dir0 tbl0 dirAddr ptAddr).1 pde = 2) ∧
    translate (physMem dirAddr ptAddr (PageTable.construct dir0 tbl0 dirAddr ptAddr).1
      (PageTable.construct dir0 tbl0 dirAddr ptAddr).2) dirAddr 0xFFFFF000 = dirAddr := by
  have hW32 : W = 2 ^ 32 := by norm_num [W]
  have hdlt : dirAddr ||| 3 < W := by
    rw [hW32]
    exact Nat.or_lt_two_pow (by rw [← hW32]; exact hdW) (by norm_num)
  have hplt : ptAddr ||| 3 < W := by
    rw [hW32]
    exact Nat.or_lt_two_pow (by rw [← hW32]; exact hpW) (by norm_num)
  have hd3 : (dirAddr ||| 3) % W = dirAddr ||| 3 := Nat.mod_eq_of_lt hdlt
  have hp3 : (ptAddr ||| 3) % W = ptAddr ||| 3 := Nat.mod_eq_of_lt hplt
  have h2 : (PageTable.construct dir0 tbl0 dirAddr ptAddr).1 1023 = dirAddr ||| 3 := by
    show fillDirLoop (updateFn (updateFn dir0 1023 ((dirAddr ||| 3) % W)) 0
      ((ptAddr ||| 3) % W)) 1 1022 1023 = _
    rw [fillDirLoop_spec, if_neg (by omega)]
    show (if (1023 : Nat) = 0 then (ptAddr ||| 3) % W
      else (if (1023 : Nat) = 1023 then (dirAddr ||| 3) % W else dir0 1023)) = dirAddr ||| 3
    rw [if_neg (by omega), if_pos rfl, hd3]
  have h3 : (PageTable.construct dir0 tbl0 dirAddr ptAddr).1 0 = ptAddr ||| 3 := by
    show fillDirLoop (updateFn (updateFn dir0 1023 ((dirAddr ||| 3) % W)) 0
      ((ptAddr ||| 3) % W)) 1 1022 0 = _
    rw [fillDirLoop_spec, if_neg (by omega)]
    show (if (0 : Nat) = 0 then (ptAddr ||| 3) % W else _) = ptAddr ||| 3
    rw [if_pos rfl, hp3]
  refine ⟨?_, h2, h3, ?_, ?_⟩
  · intro i hi
    show fillTableLoop tbl0 0 0 1024 i = _
    rw [fillTableLoop_spec 1024 tbl0 0 0 (by omega) (by norm_num) i, if_pos (by omega)]
    have hlt : 4096 * i ||| 3 < W := by
      rw [hW32]
      refine Nat.or_lt_two_pow ?_ (by norm_num)
      show 4096 * i < 2 ^ 32
      norm_num
      omega
    rw [Nat.mod_eq_of_lt hlt, Nat.mul_comm]
  · intro pde h1 hp
    show fillDirLoop (updateFn (updateFn dir0 1023 ((dirAddr ||| 3) % W)) 0
      ((ptAddr ||| 3) % W)) 1 1022 pde = 2
    rw [fillDirLoop_spec, if_pos ⟨h1, by omega⟩]
  · have hva1 : (0xFFFFF000 : Nat) >>> 22 = 1023 := by decide
    have hva2 : ((0xFFFFF000 : Nat) >>> 12) &&& 1023 = 1023 := by decide
    have hva3 : (0xFFFFF000 : Nat) &&& 4095 = 0 := by decide
    show (physMem dirAddr ptAddr (PageTable.construct dir0 tbl0 dirAddr ptAddr).1
        (PageTable.construct dir0 tbl0 dirAddr ptAddr).2
        ((physMem dirAddr ptAddr (PageTable.construct dir0 tbl0 dirAddr ptAddr).1
            (PageTable.construct dir0 tbl0 dirAddr ptAddr).2
            (dirAddr + 4 * ((0xFFFFF000 : Nat) >>> 22)) &&& 0xFFFFF000)
          + 4 * (((0xFFFFF000 : Nat) >>> 12) &&& 1023)) &&& 0xFFFFF000)
      + ((0xFFFFF000 : Nat) &&& 4095) = dirAddr
    rw [hva1, hva2, hva3]
    have hmem1 : physMem dirAddr ptAddr (PageTable.construct dir0 tbl0 dirAddr ptAddr).1
        (PageTable.construct dir0 tbl0 dirAddr ptAddr).2 (dirAddr + 4 * 1023)
        = dirAddr + 3 := by
      show (if dirAddr ≤ dirAddr + 4 * 1023 ∧ dirAddr + 4 * 1023 < dirAddr + 4096 then
          (PageTable.construct dir0 tbl0 dirAddr ptAddr).1 ((dirAddr + 4 * 1023 - dirAddr) / 4)
        else if ptAddr ≤ dirAddr + 4 * 1023 ∧ dirAddr + 4 * 1023 < ptAddr + 4096 then
          (PageTable.construct dir0 tbl0 dirAddr ptAddr).2 ((dirAddr + 4 * 1023 - ptAddr) / 4)
        else 0) = dirAddr + 3
      rw [if_pos (by omega), show (dirAddr + 4 * 1023 - dirAddr) / 4 = 1023 by omega,
        h2, lor3_of_aligned hda]
    rw [hmem1, mask_of_aligned hda hdW (by norm_num), hmem1,
      mask_of_aligned hda hdW (by norm_num)]
    omega

/-- C8 amended: after PageTable construction (with a frame-aligned 32-bit
directory address), page-table entry i equals (i x 4096) OR 3 for every i
below 1024, directory entry 1023 is the directory address OR 3, directory
entry 0 is the page-table address OR 3, and entries 1..1022 equal 2.  The
self-map consequence is about translation, not the loaded word: virtual
address 0xFFFFF000 translates to the directory physical address itself
(the word stored there is directory entry 0, the page-table address, not
the directory address as the claim states). -/
theorem C8_page_table_construction (dir0 tbl0 : Nat → Nat) (dirAddr ptAddr : Nat)
    (hda : dirAddr % 4096 = 0) (hdW : dirAddr < W) (hpW : ptAddr < W) :
    (∀ i, i < 1024 → (PageTable.construct dir0 tbl0 dirAddr ptAddr).2 i = i * 4096 ||| 3) ∧
    (PageTable.construct dir0 tbl0 dirAddr ptAddr).1 1023 = dirAddr ||| 3 ∧
    (PageTable.construct dir0 tbl0 dirAddr ptAddr).1 0 = ptAddr ||| 3 ∧
    (∀ pde, 1 ≤ pde → pde < 1023 →
      (PageTable.construct dir0 tbl0 dirAddr ptAddr).1 pde = 2) ∧
    translate (physMem dirAddr ptAddr (PageTable.construct dir0 tbl0 dirAddr ptAddr).1
      (PageTable.construct dir0 tbl0 dirAddr ptAddr).2) dirAddr 0xFFFFF000 = dirAddr :=
  pageTableBuild_facts dir0 tbl0 dirAddr ptAddr hda hdW hpW

/-- C8 counterexample: with the directory in the frame at 0x200000 and the
page table in the frame at 0x400000, the 32-bit word read at virtual
address 0xFFFFF000 is directory entry 0, that is 0x400003; masked with
0xFFFFF000 it is 0x400000, the page-table address, not the directory
address 0x200000 the claim asserts. -/
theorem C8_counterexample_word_at_selfmap_is_table_address :
    readVirtual cmem 0x200000 0xFFFFF000 &&& 0xFFFFF000 = 0x400000 ∧
    (0x400000 : Nat) ≠ 0x200000 := by
  have h := pageTableBuild_facts zeroWords zeroWords 0x200000 0x400000 (by norm_num)
    (by norm_num [W]) (by norm_num [W])
  constructor
  · have ht : translate cmem 0x200000 0xFFFFF000 = 0x200000 := h.2.2.2.2
    rw [show readVirtual cmem 0x200000 0xFFFFF000
      = cmem (translate cmem 0x200000 0xFFFFF000) from rfl, ht]
    have hword : cmem 0x200000 = 0x400000 + 3 := by
      show (if (0x200000 : Nat) ≤ 0x200000 ∧ (0x200000 : Nat) < 0x200000 + 4096 then
          cdirtbl.1 (((0x200000 : Nat) - 0x200000) / 4)
        else if (0x400000 : Nat) ≤ 0x200000 ∧ (0x200000 : Nat) < 0x400000 + 4096 then
          cdirtbl.2 (((0x200000 : Nat) - 0x400000) / 4)
        else 0) = 0x400000 + 3
      rw [if_pos (by norm_num)]
      rw [show (((0x200000 : Nat) - 0x200000) / 4) = 0 by norm_num]
      have h0 : cdirtbl.1 0 = 0x400000 ||| 3 := h.2.2.1
      rw [h0, lor3_of_aligned (by norm_num)]
    rw [hword]
    exact mask_of_aligned (by norm_num) (by norm_num [W]) (by norm_num)
  · norm_num

/-- C8 witness: the construction theorem applied to the aligned addresses
0x1000 and 0x2000: directory entry 1023 holds 0x1000 OR 3 and virtual
0xFFFFF000 translates back to 0x1000. -/
theorem C8_page_table_construction_witness :
    (PageTable.construct zeroWords zeroWords 0x1000 0x2000).1 1023 = 0x1000 ||| 3 ∧
    translate (physMem 0x1000 0x2000 (PageTable.construct zeroWords zeroWords 0x1000 0x2000).1
      (PageTable.construct zeroWords zeroWords 0x1000 0x2000).2) 0x1000 0xFFFFF000
      = 0x1000 := by
  have h := C8_page_table_construction zeroWords zeroWords 0x1000 0x2000 (by decide)
    (by decide) (by decide)
  exact ⟨h.2.1, h.2.2.2.2⟩

lemma pagesOf_pos {s : Nat} (hs : 1 ≤ s) : 1 ≤ pagesOf s := by
  unfold pagesOf
  by_cases h : s % 4096 > 0
  · rw [if_pos h]
    omega
  · rw [if_neg h]
    omega

lemma allocate_def (v : VMPool) (s : Nat) :
    v.allocate s
      = (VMPool.mk v.base_address v.size ((v.num_vm_regions + 1) % W)
           (fun i => if i = v.num_vm_regions then
               (((v.vm_region_list (wsub v.num_vm_regions 1)).1
                 + (v.vm_region_list (wsub v.num_vm_regions 1)).2) % W,
                pagesOf s * 4096 % W)
             else v.vm_region_list i),
         ((VMPool.mk v.base_address v.size ((v.num_vm_regions + 1) % W)
           (fun i => if i = v.num_vm_regions then
               (((v.vm_region_list (wsub v.num_vm_regions 1)).1
                 + (v.vm_region_list (wsub v.num_vm_regions 1)).2) % W,
                pagesOf s * 4096 % W)
             else v.vm_region_list i)).vm_region_list
          (wsub ((v.num_vm_regions + 1) % W) 1)).1) := rfl

lemma allocRun_spec :
    ∀ (sizes : List Nat) (v : VMPool),
    1 ≤ v.num_vm_regions →
    v.num_vm_regions + sizes.length < W →
    (∀ s, s ∈ sizes → 1 ≤ s) →
    (v.vm_region_list (v.num_vm_regions - 1)).1 % 4096 = 0 →
    (v.vm_region_list (v.num_vm_regions - 1)).2 % 4096 = 0 →
    (v.vm_region_list (v.num_vm_regions - 1)).1
      + (v.vm_region_list (v.num_vm_regions - 1)).2
      + 4096 * (sizes.map pagesOf).sum < W →
    (∀ a, a ∈ (allocRun v sizes).2 → a % 4096 = 0 ∧
      (v.vm_region_list (v.num_vm_regions - 1)).1
        + (v.vm_region_list (v.num_vm_regions - 1)).2 ≤ a) ∧
    List.Chain' (fun a b => a < b) (allocRun v sizes).2 := by
  intro sizes
  induction sizes with
  | nil =>
    intro v h1 h2 hall hba hsa hnw
    constructor
    · intro a ha
      have ha' : a ∈ ([] : List Nat) := ha
      exact absurd ha' (List.not_mem_nil a)
    · show List.Chain' (fun a b => a < b) []
      exact List.chain'_nil
  | cons s rest ih =>
    intro v h1 h2 hall hba hsa hnw
    rw [show (s :: rest).length = rest.length + 1 from rfl] at h2
    simp only [List.map_cons, List.sum_cons] at hnw
    have hWnum : v.num_vm_regions < W := by omega
    have hw1 : wsub v.num_vm_regions 1 = v.num_vm_regions - 1 := wsub_eq_sub h1 hWnum
    have hpw : pagesOf s * 4096 < W := by omega
    have hnum' : (v.allocate s).1.num_vm_regions = v.num_vm_regions + 1 := by
      rw [allocate_num]
      exact Nat.mod_eq_of_lt (by omega)
    have hreg' : (v.allocate s).1.vm_region_list v.num_vm_regions
        = ((v.vm_region_list (v.num_vm_regions - 1)).1
            + (v.vm_region_list (v.num_vm_regions - 1)).2,
           pagesOf s * 4096) := by
      rw [allocate_rl, if_pos rfl, hw1]
      have hm1 : ((v.vm_region_list (v.num_vm_regions - 1)).1
          + (v.vm_region_list (v.num_vm_regions - 1)).2) % W
          = (v.vm_region_list (v.num_vm_regions - 1)).1
            + (v.vm_region_list (v.num_vm_regions - 1)).2 := Nat.mod_eq_of_lt (by omega)
      rw [hm1, Nat.mod_eq_of_lt hpw]
    have hwnum : wsub ((v.num_vm_regions + 1) % W) 1 = v.num_vm_regions := by
      rw [Nat.mod_eq_of_lt (show v.num_vm_regions + 1 < W by omega),
        wsub_eq_sub (by omega) (by omega)]
      omega
    have hret : (v.allocate s).2 = (v.vm_region_list (v.num_vm_regions - 1)).1
        + (v.vm_region_list (v.num_vm_regions - 1)).2 := by
      rw [allocate_def, hwnum]
      show ((VMPool.mk v.base_address v.size ((v.num_vm_regions + 1) % W)
           (fun i => if i = v.num_vm_regions then
               (((v.vm_region_list (wsub v.num_vm_regions 1)).1
                 + (v.vm_region_list (wsub v.num_vm_regions 1)).2) % W,
                pagesOf s * 4096 % W)
             else v.vm_region_list i)).vm_region_list v.num_vm_regions).1 = _
      show (if v.num_vm_regions = v.num_vm_regions then
          (((v.vm_region_list (wsub v.num_vm_regions 1)).1
            + (v.vm_region_list (wsub v.num_vm_regions 1)).2) % W,
           pagesOf s * 4096 % W)
        else v.vm_region_list v.num_vm_regions).1 = _
      rw [if_pos rfl]
      show ((v.vm_region_list (wsub v.num_vm_regions 1)).1
        + (v.vm_region_list (wsub v.num_vm_regions 1)).2) % W = _
      rw [hw1]
      exact Nat.mod_eq_of_lt (by omega)
    have hidx : (v.allocate s).1.num_vm_regions - 1 = v.num_vm_regions := by omega
    have hreg'' : (v.allocate s).1.vm_region_list ((v.allocate s).1.num_vm_regions - 1)
        = ((v.vm_region_list (v.num_vm_regions - 1)).1
            + (v.vm_region_list (v.num_vm_regions - 1)).2,
           pagesOf s * 4096) := by
      rw [hidx, hreg']
    have hba' : ((v.allocate s).1.vm_region_list ((v.allocate s).1.num_vm_regions - 1)).1
        % 4096 = 0 := by
      rw [hreg'']
      show ((v.vm_region_list (v.num_vm_regions - 1)).1
        + (v.vm_region_list (v.num_vm_regions - 1)).2) % 4096 = 0
      omega
    have hsa' : ((v.allocate s).1.vm_region_list ((v.allocate s).1.num_vm_regions - 1)).2
        % 4096 = 0 := by
      rw [hreg'']
      show pagesOf s * 4096 % 4096 = 0
      exact Nat.mul_mod_left (pagesOf s) 4096
    have hnw' : ((v.allocate s).1.vm_region_list ((v.allocate s).1.num_vm_regions - 1)).1
        + ((v.allocate s).1.vm_region_list ((v.allocate s).1.num_vm_regions - 1)).2
        + 4096 * (rest.map pagesOf).sum < W := by
      rw [hreg'']
      show (v.vm_region_list (v.num_vm_regions - 1)).1
        + (v.vm_region_list (v.num_vm_regions - 1)).2 + pagesOf s * 4096
        + 4096 * (rest.map pagesOf).sum < W
      omega
    have hIH := ih (v.allocate s).1 (by omega) (by omega)
      (fun s' hs' => hall s' (List.mem_cons_of_mem s hs')) hba' hsa' hnw'
    have hrun : (allocRun v (s :: rest)).2
        = (v.allocate s).2 :: (allocRun (v.allocate s).1 rest).2 := rfl
    rw [hrun, hret]
    constructor
    · intro a ha
      rcases List.mem_cons.mp ha with h | h
      · subst h
        exact ⟨by omega, le_refl _⟩
      · obtain ⟨hal, hge⟩ := hIH.1 a h
        refine ⟨hal, ?_⟩
        rw [hreg''] at hge
        have hge2 : (v.vm_region_list (v.num_vm_regions - 1)).1
            + (v.vm_region_list (v.num_vm_regions - 1)).2 + pagesOf s * 4096 ≤ a := hge
        omega
    · rw [List.chain'_cons']
      refine ⟨?_, hIH.2⟩
      intro b hb
      have hbmem : b ∈ (allocRun (v.allocate s).1 rest).2 := List.mem_of_mem_head? hb
      obtain ⟨-, hge⟩ := hIH.1 b hbmem
      rw [hreg''] at hge
      have hge2 : (v.vm_region_list (v.num_vm_regions - 1)).1
          + (v.vm_region_list (v.num_vm_regions - 1)).2 + pagesOf s * 4096 ≤ b := hge
      have hp1 : 1 ≤ pagesOf s := pagesOf_pos (hall s (List.mem_cons_self s rest))
      show (v.vm_region_list (v.num_vm_regions - 1)).1
        + (v.vm_region_list (v.num_vm_regions - 1)).2 < b
      omega

/-- C10 amended: on a freshly constructed pool whose base address is
page-aligned, for every sequence of allocate calls with all request sizes
at least 1 byte and the total allocation (bookkeeping region included)
staying below 2^32, the returned virtual addresses are page-aligned and
strictly increasing (adjacent-pairwise, hence globally).  As stated, over
every VMPool and every sequence, the claim is false: allocate(0) appends a
zero-page region so the next call returns the same address again, and on a
pool with an unaligned base every returned address inherits the
misalignment, since allocate only ever adds multiples of PAGE_SIZE to
base_address + PAGE_SIZE. -/
theorem C10_allocate_run_monotone_aligned (junk : Nat → Nat × Nat) (base size : Nat)
    (sizes : List Nat) (hb : base % 4096 = 0) (hall : ∀ s, s ∈ sizes → 1 ≤ s)
    (hlen : 1 + sizes.length < W)
    (hnw : base + 4096 + 4096 * (sizes.map pagesOf).sum < W) :
    (∀ a, a ∈ (allocRun (VMPool.construct junk base size) sizes).2 → a % 4096 = 0) ∧
    List.Chain' (fun a b => a < b)
      (allocRun (VMPool.construct junk base size) sizes).2 := by
  have hrl : (VMPool.construct junk base size).vm_region_list
      ((VMPool.construct junk base size).num_vm_regions - 1) = (base, 4096) := by
    show (if (0 : Nat) = 0 then (base, 4096) else junk 0) = (base, 4096)
    rw [if_pos rfl]
  have h := allocRun_spec sizes (VMPool.construct junk base size)
    (le_refl 1) hlen hall
    (by rw [hrl]; exact hb)
    (by rw [hrl]; show (4096 : Nat) % 4096 = 0; decide)
    (by rw [hrl]; exact hnw)
  exact ⟨fun a ha => (h.1 a ha).1, h.2⟩

/-- C10 witness: three allocations of 5000, 4096 and 1 bytes on a pool
based at 0: the addresses returned are 4096, 12288 and 16384, page-aligned
and strictly increasing. -/
theorem C10_allocate_run_monotone_aligned_witness :
    (∀ a, a ∈ (allocRun (VMPool.construct zreg 0 40960) [5000, 4096, 1]).2 →
      a % 4096 = 0) ∧
    List.Chain' (fun a b => a < b)
      (allocRun (VMPool.construct zreg 0 40960) [5000, 4096, 1]).2 :=
  C10_allocate_run_monotone_aligned zreg 0 40960 [5000, 4096, 1] (by decide)
    (by decide) (by decide) (by decide)

/-- C10 counterexample: two allocate(0) calls on a pool based at 0 both
return 4096, which is not strictly increasing; and on a pool based at the
unaligned address 1, allocate(1) returns 4097, which is not a multiple of
PAGE_SIZE. -/
theorem C10_counterexample_zero_size_and_unaligned_base :
    (allocRun (VMPool.construct zreg 0 999999) [0, 0]).2 = [4096, 4096] ∧
    ¬ List.Chain' (fun a b => a < b)
        (allocRun (VMPool.construct zreg 0 999999) [0, 0]).2 ∧
    ((VMPool.construct zreg 1 999999).allocate 1).2 = 4097 ∧
    ¬ (4097 % 4096 = 0) := by
  have hl : (allocRun (VMPool.construct zreg 0 999999) [0, 0]).2 = [4096, 4096] := by decide
  refine ⟨hl, ?_, by decide, by decide⟩
  intro hch
  rw [hl, List.chain'_cons] at hch
  exact absurd hch.1 (by decide)
